import Mathlib

/-!
Shallow embedding of the guardspine-kernel sealing/verification core
(src/canonical.ts, src/errors.ts, src/seal.ts, src/verify.ts) together with
theorems settling the specification claims.

Modelling conventions:
* Structured JS values are the inductive JsonValue below; JS numbers are
  modelled as integers (every claim only exercises the safe-integer path of
  serializeNumber, which renders via Number.prototype.toString).
* node:crypto primitives (SHA-256, HMAC, asymmetric verify, base64 decode)
  are external to the repository; they are modelled by an explicit
  CryptoOracle parameter threaded through every function that hashes.
* JS strings are Lean strings (sequences of Unicode scalar values);
  Buffer.from(s, "utf-8") is modelled by utf8Bytes, and the default
  Array.prototype.sort() comparator (UTF-16 code-unit lexicographic order)
  by unitsLe over utf16Units.
* The structured "details" payload of verification errors is not modelled;
  an error is its code plus its message text.
-/

namespace GuardSpine

/-- External cryptographic primitives used by the code via node:crypto.
hashHex models createHash("sha256").update(data, "utf-8").digest("hex") on a
string; hmacSha256Base64 models createHmac("sha256", secret).update(content
bytes).digest("base64"); base64Bytes models Buffer.from(s, "base64") (lenient,
total); asymVerify models the try-block of crypto.verify for a given algorithm
name, content bytes, key material bytes and signature bytes (false when key
parsing or verification throws). -/
structure CryptoOracle where
  hashHex : String → String
  hmacSha256Base64 : String → List Nat → String
  base64Bytes : String → List Nat
  asymVerify : String → List Nat → List Nat → List Nat → Bool

/-! ## Text encodings -/

/-- UTF-8 encoding of one Unicode scalar value, written with division and
remainder (equivalent to the usual bit operations on the valid ranges). -/
def encodeUtf8Char (c : Nat) : List Nat :=
  if c < 0x80 then [c]
  else if c < 0x800 then [0xC0 + c / 64, 0x80 + c % 64]
  else if c < 0x10000 then [0xE0 + c / 4096, 0x80 + (c / 64) % 64, 0x80 + c % 64]
  else [0xF0 + c / 262144, 0x80 + (c / 4096) % 64, 0x80 + (c / 64) % 64, 0x80 + c % 64]

/-- Byte sequence of Buffer.from(s, "utf-8") for a string of Unicode scalar
values. Lean's String cannot represent unpaired UTF-16 surrogates; the full
code-unit-level conversion, including Node's replacement of unpaired
surrogates with U+FFFD, is utf8BytesJs below, of which this is the
restriction to well-formed strings (utf8BytesJs_utf16Units). -/
def utf8Bytes (s : String) : List Nat :=
  s.data.flatMap fun c => encodeUtf8Char c.toNat

/-- UTF-16 code units of a JS string (surrogate pair for non-BMP scalars). -/
def utf16Units (s : String) : List Nat :=
  s.data.flatMap fun c =>
    let n := c.toNat
    if n < 0x10000 then [n]
    else [0xD800 + (n - 0x10000) / 0x400, 0xDC00 + (n - 0x10000) % 0x400]

/-- Modelled from node:crypto timingSafeEqual: on equal-length buffers it
returns whether the buffers are byte-for-byte equal (the constant-time
execution profile is not modelled, only the result). -/
def timingSafeEqual (l r : List Nat) : Bool := l == r

/-- verify.ts safeEqual on strings of Unicode scalar values: convert both
strings to UTF-8 buffers, return false on a length mismatch, otherwise
compare with timingSafeEqual. The general model on arbitrary JS strings
(which may contain unpaired surrogates) is safeEqualJs below; on
representable strings the two agree (safeEqual_eq_safeEqualJs). -/
def safeEqual (left right : String) : Bool :=
  let bufLeft := utf8Bytes left
  let bufRight := utf8Bytes right
  if bufLeft.length ≠ bufRight.length then false
  else timingSafeEqual bufLeft bufRight

/-! ## Canonical JSON (canonical.ts) -/

/-- Recursive tagged union of the JS values the serializer handles.
jabsent models the JS value undefined (skipped inside objects, rendered as
null elsewhere, the default branch of serializeValue). -/
inductive JsonValue where
  | jnull
  | jabsent
  | jbool (b : Bool)
  | jnum (n : Int)
  | jstr (s : String)
  | jarr (elements : List JsonValue)
  | jobj (members : List (String × JsonValue))

/-- Lowercase hexadecimal digit. -/
def hexDigit (n : Nat) : Char :=
  if n < 10 then Char.ofNat (48 + n) else Char.ofNat (87 + n)

/-- JSON.stringify escaping of a single character: double quote, backslash
and control characters are escaped, everything else is emitted literally. -/
def escapeChar (c : Char) : String :=
  if c = '"' then "\\\""
  else if c = '\\' then "\\\\"
  else if c.toNat < 0x20 then
    match c.toNat with
    | 8 => "\\b"
    | 9 => "\\t"
    | 10 => "\\n"
    | 12 => "\\f"
    | 13 => "\\r"
    | n => "\\u00" ++ String.mk [hexDigit (n / 16), hexDigit (n % 16)]
  else String.singleton c

/-- canonical.ts serializeString (JSON.stringify on a string). -/
def serializeString (text : String) : String :=
  "\"" ++ String.join (text.data.map escapeChar) ++ "\""

/-- canonical.ts serializeNumber restricted to the integer path
(Number.prototype.toString on a safe integer). -/
def serializeNumber (num : Int) : String := toString num

/-- Strict lexicographic order on code-unit lists (the order induced by the
JS string less-than operator). -/
def unitsLt : List Nat → List Nat → Bool
  | [], [] => false
  | [], _ :: _ => true
  | _ :: _, [] => false
  | x :: xs, y :: ys => if x < y then true else if y < x then false else unitsLt xs ys

/-- Reflexive lexicographic order on code-unit lists. -/
def unitsLe : List Nat → List Nat → Bool
  | [], _ => true
  | _ :: _, [] => false
  | x :: xs, y :: ys => if x < y then true else if y < x then false else unitsLe xs ys

/-- JS default sort comparator on strings: UTF-16 code-unit lexicographic
order (at most). -/
def keyLeB (a b : String) : Bool := unitsLe (utf16Units a) (utf16Units b)

/-- Insert one serialized member into a key-sorted list of members. -/
def insertMember (p : String × Option String) :
    List (String × Option String) → List (String × Option String)
  | [] => [p]
  | q :: rest => if keyLeB p.1 q.1 then p :: q :: rest else q :: insertMember p rest

/-- Sort serialized members by key, modelling Object.keys(obj).sort() with
the default (code-unit lexicographic) comparator. -/
def sortMembers : List (String × Option String) → List (String × Option String)
  | [] => []
  | p :: rest => insertMember p (sortMembers rest)

/-- Emit one sorted member, skipping members whose value was undefined. -/
def renderMember (p : String × Option String) : Option String :=
  p.2.map fun v => serializeString p.1 ++ ":" ++ v

/-- Comma-join serialized fragments (Array.prototype.join(",")). -/
def joinComma (l : List String) : String := String.intercalate "," l

mutual

/-- canonical.ts serializeValue. -/
def serializeValue : JsonValue → String
  | .jnull => "null"
  | .jabsent => "null"
  | .jbool b => if b then "true" else "false"
  | .jnum n => serializeNumber n
  | .jstr s => serializeString s
  | .jarr elements => "[" ++ joinComma (serializeElems elements) ++ "]"
  | .jobj members =>
      "\x7b" ++ joinComma ((sortMembers (serializeMembers members)).filterMap renderMember) ++ "\x7d"

/-- Serialize the elements of an array in order. -/
def serializeElems : List JsonValue → List String
  | [] => []
  | v :: rest => serializeValue v :: serializeElems rest

/-- Serialize each object member, keeping the key and marking members whose
value is undefined with none so they are skipped after sorting (the source
sorts the keys first and skips undefined values while emitting; since the
sort only looks at keys, serializing before sorting emits the same text). -/
def serializeMembers : List (String × JsonValue) → List (String × Option String)
  | [] => []
  | (k, .jabsent) :: rest => (k, none) :: serializeMembers rest
  | (k, v) :: rest => (k, some (serializeValue v)) :: serializeMembers rest

end

/-- canonical.ts canonicalJson. -/
def canonicalJson (value : JsonValue) : String := serializeValue value

/-- The sequence of keys canonicalJson actually emits for an object. -/
def emittedKeys (members : List (String × JsonValue)) : List String :=
  (sortMembers (serializeMembers members)).filterMap fun p => p.2.map fun _ => p.1

/-! ## Error taxonomy (errors.ts) -/

/-- The ErrorCode enum exactly as declared in errors.ts. It has eight
members; note that no UNSUPPORTED_VERSION member is declared, although
verify.ts references ErrorCode.UNSUPPORTED_VERSION (a property access that
yields undefined on the compiled enum object). -/
inductive ErrorCode where
  | HASH_CHAIN_BROKEN
  | ROOT_HASH_MISMATCH
  | CONTENT_HASH_MISMATCH
  | SIGNATURE_INVALID
  | SEQUENCE_GAP
  | MISSING_REQUIRED_FIELD
  | INPUT_VALIDATION_FAILED
  | LENGTH_MISMATCH
deriving DecidableEq

/-- A verification error: its code and its message. The code is an Option
because verify.ts emits one error whose code is the undefined enum member
ErrorCode.UNSUPPORTED_VERSION (modelled as none); every declared code appears
as some. The structured details payload is not modelled. -/
structure VerificationError where
  code : Option ErrorCode
  message : String
deriving DecidableEq

/-- errors.ts VerificationResult. -/
structure VerificationResult where
  valid : Bool
  errors : List VerificationError
deriving DecidableEq

/-! ## Schema types (schemas/evidence-bundle.d.ts), runtime shapes -/

/-- A sealed evidence item. -/
structure EvidenceItem where
  item_id : String
  content_type : String
  content : JsonValue
  content_hash : String
  sequence : Nat

/-- One link of a hash chain. item_id and content_type are Options because
verify.ts explicitly handles chains whose links lack them (legacy chains):
it tests typeof link.item_id === "string". -/
structure HashChainLink where
  sequence : Nat
  item_id : Option String
  content_type : Option String
  content_hash : String
  previous_hash : String
  chain_hash : String

/-- An immutability proof: hash chain plus root hash. -/
structure ImmutabilityProof where
  hash_chain : List HashChainLink
  root_hash : String

/-- An optional detached signature over the bundle. algorithm is a plain
string at runtime (verify.ts handles unknown algorithm values). -/
structure Signature where
  signature_id : String
  algorithm : String
  signer_id : String
  signature_value : String
  signed_at : String
  public_key_id : Option String

/-- A bundle as verifyBundle receives it: every field that verify.ts tests
for presence (=== undefined || === null) is an Option. -/
structure EvidenceBundle where
  bundle_id : Option String
  version : Option String
  created_at : Option String
  policy_id : Option String := none
  artifact_id : Option String := none
  risk_tier : Option String := none
  items : Option (List EvidenceItem)
  immutability_proof : Option ImmutabilityProof
  signatures : Option (List Signature) := none
  metadata : Option JsonValue := none

/-! ## Sealing (seal.ts) -/

/-- Sentinel value for the first link in a hash chain (no predecessor). -/
def GENESIS_HASH : String := "genesis"

/-- seal.ts sha256: SHA-256 of a raw string as "sha256:" plus hex. -/
def sha256 (o : CryptoOracle) (data : String) : String :=
  "sha256:" ++ o.hashHex data

/-- seal.ts computeContentHash (verify.ts contentHash is the identical
expression): SHA-256 of the canonical JSON of a value. -/
def computeContentHash (o : CryptoOracle) (content : JsonValue) : String :=
  sha256 o (canonicalJson content)

/-- seal.ts ChainInput. -/
structure ChainInput where
  content : JsonValue
  contentType : String
  contentId : String

/-- seal.ts ProofVersion: "v0.2.0" or "legacy". -/
inductive ProofVersion where
  | v020
  | legacy
deriving DecidableEq

/-- seal.ts SealOptions. -/
structure SealOptions where
  proofVersion : Option ProofVersion := none

/-- seal.ts resolveProofVersion: options?.proofVersion ?? "v0.2.0". -/
def resolveProofVersion (options : Option SealOptions) : ProofVersion :=
  match options with
  | some o => o.proofVersion.getD .v020
  | none => .v020

/-- seal.ts chainHashV020: hash of sequence|item_id|content_type|content_hash|previous_hash. -/
def chainHashV020 (o : CryptoOracle) (sequence : Nat)
    (itemId contentType contentHash previousHash : String) : String :=
  sha256 o (toString sequence ++ "|" ++ itemId ++ "|" ++ contentType ++ "|" ++
    contentHash ++ "|" ++ previousHash)

/-- seal.ts chainHashLegacy: hash of sequence|content_hash|previous_hash. -/
def chainHashLegacy (o : CryptoOracle) (sequence : Nat)
    (contentHash previousHash : String) : String :=
  sha256 o (toString sequence ++ "|" ++ contentHash ++ "|" ++ previousHash)

/-- Hard ceiling on chain length. -/
def MAX_CHAIN_ITEMS : Nat := 10000

/-- The seal.ts buildHashChain loop: walks the inputs accumulating the
sequence number and the previous link's chain hash. -/
def chainLoop (o : CryptoOracle) (version : ProofVersion) :
    List ChainInput → Nat → String → List HashChainLink
  | [], _, _ => []
  | inp :: rest, seq, previousHash =>
      let itemContentHash := computeContentHash o inp.content
      let chainHash :=
        match version with
        | .legacy => chainHashLegacy o seq itemContentHash previousHash
        | .v020 => chainHashV020 o seq inp.contentId inp.contentType itemContentHash previousHash
      { sequence := seq, item_id := some inp.contentId, content_type := some inp.contentType,
        content_hash := itemContentHash, previous_hash := previousHash,
        chain_hash := chainHash } :: chainLoop o version rest (seq + 1) chainHash

/-- seal.ts buildHashChain: size guard (before any hashing), then the loop
starting at sequence 0 from the genesis sentinel. Throwing is modelled with
Except.error carrying the thrown message. -/
def buildHashChain (o : CryptoOracle) (items : List ChainInput)
    (options : Option SealOptions) : Except String (List HashChainLink) :=
  if items.length > MAX_CHAIN_ITEMS then
    .error ("buildHashChain: " ++ toString items.length ++ " items exceeds limit of " ++
      toString MAX_CHAIN_ITEMS)
  else
    .ok (chainLoop o (resolveProofVersion options) items 0 GENESIS_HASH)

/-- The concatenation of all chain_hash values, as the incremental digest in
seal.ts computeRootHash and verify.ts verifyRootHash feeds them. -/
def concatChainHashes (chain : List HashChainLink) : String :=
  chain.foldl (fun acc link => acc ++ link.chain_hash) ""

/-- seal.ts computeRootHash: SHA-256 over all chain hashes in order. -/
def computeRootHash (o : CryptoOracle) (chain : List HashChainLink) : String :=
  "sha256:" ++ o.hashHex (concatChainHashes chain)

/-- seal.ts SealResult. -/
structure SealResult where
  immutabilityProof : ImmutabilityProof
  items : List EvidenceItem

/-- A not-yet-sealed item as sealBundle receives it. A missing item_id or
content_type is indistinguishable at runtime from the empty string (both are
falsy in the source's checks), so both are modelled as String; a missing
content is jabsent (the source applies content ?? \x7b\x7d). -/
structure PartialItem where
  item_id : String
  content_type : String
  content : JsonValue

/-- The content ?? \x7b\x7d normalization applied by sealBundle (?? replaces
null and undefined with the empty object). -/
def normalizeContent (c : JsonValue) : JsonValue :=
  match c with
  | .jnull => .jobj []
  | .jabsent => .jobj []
  | v => v

/-- The validating map inside sealBundle: per index, reject a falsy item_id
or content_type (first offender throws), otherwise build the ChainInput. -/
def validateItems : List PartialItem → Nat → Except String (List ChainInput)
  | [], _ => .ok []
  | item :: rest, idx =>
      if item.item_id = "" then
        .error ("sealBundle: item " ++ toString idx ++ " missing item_id")
      else if item.content_type = "" then
        .error ("sealBundle: item " ++ toString idx ++ " missing content_type")
      else do
        let tail ← validateItems rest (idx + 1)
        pure ({ content := normalizeContent item.content, contentType := item.content_type,
                contentId := item.item_id } :: tail)

/-- The sealed-items map inside sealBundle: each input item annotated with
the chain link's content_hash and its zero-based sequence. -/
def buildSealedItems : List PartialItem → List HashChainLink → Nat → List EvidenceItem
  | item :: restItems, link :: restLinks, idx =>
      { item_id := item.item_id, content_type := item.content_type,
        content := normalizeContent item.content, content_hash := link.content_hash,
        sequence := idx } :: buildSealedItems restItems restLinks (idx + 1)
  | _, _, _ => []

/-- seal.ts sealBundle: non-empty check, per-item validation, chain build,
root hash, sealed items plus immutability proof. -/
def sealBundle (o : CryptoOracle) (items : List PartialItem)
    (options : Option SealOptions) : Except String SealResult :=
  if items.isEmpty then .error "sealBundle: items must be a non-empty array"
  else do
    let chainInputs ← validateItems items 0
    let chain ← buildHashChain o chainInputs options
    let rootHash := computeRootHash o chain
    pure { immutabilityProof := { hash_chain := chain, root_hash := rootHash },
           items := buildSealedItems items chain 0 }

/-! ## Verification (verify.ts) -/

/-- The merged verification options (BundleVerificationOptions =
SignatureVerificationOptions and ProofVerificationOptions). -/
structure VerifyOptions where
  publicKeys : Option (List (String × String)) := none
  hmacSecret : Option String := none
  acceptProofVersions : Option (List ProofVersion) := none

/-- verify.ts resolveAcceptedProofVersions: default to ["v0.2.0"] when the
option is absent or empty (the console.warn on accepting legacy is a side
effect with no bearing on the result and is not modelled). -/
def resolveAcceptedProofVersions (options : Option VerifyOptions) : List ProofVersion :=
  match options with
  | some o =>
      match o.acceptProofVersions with
      | none => [.v020]
      | some [] => [.v020]
      | some vs => vs
  | none => [.v020]

/-- All errors verifyHashChain records for one link, given the expected
sequence number and expected previous hash. -/
def chainLinkErrors (o : CryptoOracle) (accepted : List ProofVersion)
    (seq : Nat) (expectedPrev : String) (link : HashChainLink) : List VerificationError :=
  let seqErrs :=
    if link.sequence ≠ seq then
      [⟨some .SEQUENCE_GAP,
        "Expected sequence " ++ toString seq ++ ", got " ++ toString link.sequence⟩]
    else []
  let prevErrs :=
    if safeEqual link.previous_hash expectedPrev then []
    else [⟨some .HASH_CHAIN_BROKEN,
      "Chain broken at sequence " ++ toString seq ++ ": previous_hash mismatch"⟩]
  let allowV020 := accepted.contains .v020
  let allowLegacy := accepted.contains .legacy
  let hasV020Fields := link.item_id.isSome && link.content_type.isSome
  let missingErrs :=
    if allowV020 && (!hasV020Fields && !allowLegacy) then
      [⟨some .HASH_CHAIN_BROKEN,
        "Chain hash missing item_id/content_type at sequence " ++ toString seq⟩]
    else []
  let v020Valid := allowV020 && hasV020Fields &&
    safeEqual link.chain_hash (chainHashV020 o link.sequence (link.item_id.getD "")
      (link.content_type.getD "") link.content_hash link.previous_hash)
  let chainValid := v020Valid ||
    (allowLegacy &&
      safeEqual link.chain_hash (chainHashLegacy o link.sequence link.content_hash link.previous_hash))
  let mismatchErrs :=
    if chainValid then []
    else [⟨some .HASH_CHAIN_BROKEN, "Chain hash mismatch at sequence " ++ toString seq⟩]
  seqErrs ++ prevErrs ++ missingErrs ++ mismatchErrs

/-- The verifyHashChain walk: accumulates the index and the previous link's
stored chain_hash (genesis sentinel at index 0). -/
def chainLoopVerify (o : CryptoOracle) (accepted : List ProofVersion) :
    List HashChainLink → Nat → String → List VerificationError
  | [], _, _ => []
  | link :: rest, seq, expectedPrev =>
      chainLinkErrors o accepted seq expectedPrev link ++
        chainLoopVerify o accepted rest (seq + 1) link.chain_hash

/-- verify.ts verifyHashChain. -/
def verifyHashChain (o : CryptoOracle) (chain : List HashChainLink)
    (options : Option VerifyOptions) : VerificationResult :=
  let accepted := resolveAcceptedProofVersions options
  if chain.isEmpty then
    ⟨false, [⟨some .INPUT_VALIDATION_FAILED, "Hash chain must be a non-empty array"⟩]⟩
  else
    let errs := chainLoopVerify o accepted chain 0 GENESIS_HASH
    ⟨errs.isEmpty, errs⟩

/-- verify.ts verifyRootHash: reject an empty chain, else recompute the root
from the chain and compare constant-time with the stored value. -/
def verifyRootHash (o : CryptoOracle) (proof : ImmutabilityProof) : VerificationResult :=
  if proof.hash_chain.isEmpty then
    ⟨false, [⟨some .INPUT_VALIDATION_FAILED,
      "Immutability proof must contain a non-empty hash_chain"⟩]⟩
  else
    let expected := "sha256:" ++ o.hashHex (concatChainHashes proof.hash_chain)
    if safeEqual proof.root_hash expected then ⟨true, []⟩
    else ⟨false, [⟨some .ROOT_HASH_MISMATCH, "Root hash does not match computed value"⟩]⟩

/-- The per-item check of verifyContentHashes. -/
def itemContentErrors (o : CryptoOracle) (item : EvidenceItem) : List VerificationError :=
  if safeEqual item.content_hash (computeContentHash o item.content) then []
  else [⟨some .CONTENT_HASH_MISMATCH, "Content hash mismatch for item " ++ item.item_id⟩]

/-- verify.ts verifyContentHashes. -/
def verifyContentHashes (o : CryptoOracle) (items : List EvidenceItem) : VerificationResult :=
  if items.isEmpty then
    ⟨false, [⟨some .INPUT_VALIDATION_FAILED, "Items must be a non-empty array"⟩]⟩
  else
    let errs := items.flatMap (itemContentErrors o)
    ⟨errs.isEmpty, errs⟩

/-! ### Signature verification -/

/-- The fixed SPKI DER prefix for wrapping a raw Ed25519 key
(Buffer.from("302a300506032b6570032100", "hex")). -/
def ed25519SpkiPrefix : List Nat :=
  [0x30, 0x2a, 0x30, 0x05, 0x06, 0x03, 0x2b, 0x65, 0x70, 0x03, 0x21, 0x00]

/-- verify.ts resolvePublicKey: look the key id (or "default") up in the
caller-supplied map; PEM text is used as-is (UTF-8 bytes), raw base64 text is
decoded and wrapped as SPKI DER if it decodes to 32 bytes. -/
def resolvePublicKey (o : CryptoOracle) (sig : Signature)
    (options : Option VerifyOptions) : Option (List Nat) :=
  let keyId :=
    match sig.public_key_id with
    | some s => if s = "" then "default" else s
    | none => "default"
  let keys :=
    match options with
    | some opt => opt.publicKeys.getD []
    | none => []
  let key := (keys.lookup keyId).orElse fun _ => keys.lookup "default"
  match key with
  | none => none
  | some k =>
      if k.startsWith "-----BEGIN" then some (utf8Bytes k)
      else
        let raw := o.base64Bytes k
        if raw.length = 32 then some (ed25519SpkiPrefix ++ raw) else none

/-- JSON shape of an Option String field (undefined when absent). -/
def optStrJson : Option String → JsonValue
  | some s => .jstr s
  | none => .jabsent

/-- JSON shape of a sealed item, as canonicalJson sees it. -/
def itemJson (item : EvidenceItem) : JsonValue :=
  .jobj [("item_id", .jstr item.item_id), ("content_type", .jstr item.content_type),
    ("content", item.content), ("content_hash", .jstr item.content_hash),
    ("sequence", .jnum (Int.ofNat item.sequence))]

/-- JSON shape of a chain link. -/
def linkJson (link : HashChainLink) : JsonValue :=
  .jobj [("sequence", .jnum (Int.ofNat link.sequence)), ("item_id", optStrJson link.item_id),
    ("content_type", optStrJson link.content_type),
    ("content_hash", .jstr link.content_hash), ("previous_hash", .jstr link.previous_hash),
    ("chain_hash", .jstr link.chain_hash)]

/-- JSON shape of an immutability proof. -/
def proofJson (proof : ImmutabilityProof) : JsonValue :=
  .jobj [("hash_chain", .jarr (proof.hash_chain.map linkJson)),
    ("root_hash", .jstr proof.root_hash)]

/-- The bundle copy verifySignatures canonicalizes: the spread of the bundle
with signatures set to undefined (so the serializer omits it). -/
def bundleJsonNoSignatures (bundle : EvidenceBundle) : JsonValue :=
  .jobj [("bundle_id", optStrJson bundle.bundle_id), ("version", optStrJson bundle.version),
    ("created_at", optStrJson bundle.created_at), ("policy_id", optStrJson bundle.policy_id),
    ("artifact_id", optStrJson bundle.artifact_id), ("risk_tier", optStrJson bundle.risk_tier),
    ("items", match bundle.items with
      | some l => .jarr (l.map itemJson)
      | none => .jabsent),
    ("immutability_proof", match bundle.immutability_proof with
      | some p => proofJson p
      | none => .jabsent),
    ("signatures", .jabsent),
    ("metadata", bundle.metadata.getD .jabsent)]

/-- The per-signature checks of verifySignatures. -/
def signatureErrors (o : CryptoOracle) (content : List Nat)
    (options : Option VerifyOptions) (sig : Signature) : List VerificationError :=
  if sig.signature_value = "" then
    [⟨some .SIGNATURE_INVALID, "Signature missing signature_value"⟩]
  else if sig.algorithm = "hmac-sha256" then
    let secret :=
      match options with
      | some opt => opt.hmacSecret.getD ""
      | none => ""
    if secret = "" then
      [⟨some .SIGNATURE_INVALID, "HMAC signature present but no hmacSecret provided"⟩]
    else
      let expected := o.hmacSha256Base64 secret content
      if safeEqual expected sig.signature_value then []
      else [⟨some .SIGNATURE_INVALID, "HMAC signature verification failed"⟩]
  else
    match resolvePublicKey o sig options with
    | none => [⟨some .SIGNATURE_INVALID, "No public key available for signature"⟩]
    | some key =>
        let signatureBytes := o.base64Bytes sig.signature_value
        let ok :=
          if sig.algorithm = "ed25519" || sig.algorithm = "rsa-sha256" ||
              sig.algorithm = "ecdsa-p256" then
            o.asymVerify sig.algorithm content key signatureBytes
          else false
        if ok then [] else [⟨some .SIGNATURE_INVALID, "Signature verification failed"⟩]

/-- verify.ts verifySignatures: vacuous success with no signatures, else
every signature is checked against the canonical bundle bytes. -/
def verifySignatures (o : CryptoOracle) (bundle : EvidenceBundle)
    (options : Option VerifyOptions) : VerificationResult :=
  let signatures := bundle.signatures.getD []
  if signatures.isEmpty then ⟨true, []⟩
  else
    let content := utf8Bytes (canonicalJson (bundleJsonNoSignatures bundle))
    let errs := signatures.flatMap (signatureErrors o content options)
    ⟨errs.isEmpty, errs⟩

/-! ### Bundle orchestrator -/

/-- One MISSING_REQUIRED_FIELD error when the field is absent. -/
def missingField (name : String) (absent : Bool) : List VerificationError :=
  if absent then [⟨some .MISSING_REQUIRED_FIELD, "Missing required field: " ++ name⟩] else []

/-- The required-field sweep of verifyBundle, in source order. -/
def fieldErrors (bundle : EvidenceBundle) : List VerificationError :=
  missingField "bundle_id" bundle.bundle_id.isNone ++
  missingField "version" bundle.version.isNone ++
  missingField "created_at" bundle.created_at.isNone ++
  missingField "items" bundle.items.isNone ++
  missingField "immutability_proof" bundle.immutability_proof.isNone

/-- The accepted bundle version values (verify.ts SUPPORTED_VERSIONS). -/
def SUPPORTED_VERSIONS : List String := ["0.2.0"]

/-- The version-value check of verifyBundle. It runs only when the version
is present and truthy (a present empty string is skipped); the emitted error
carries code none because verify.ts references the undeclared enum member
ErrorCode.UNSUPPORTED_VERSION, which is undefined at runtime. -/
def versionErrors (bundle : EvidenceBundle) : List VerificationError :=
  match bundle.version with
  | some v =>
      if v ≠ "" ∧ ¬ SUPPORTED_VERSIONS.contains v then
        [⟨none, "Unsupported bundle version: " ++ v ++ ". Supported: " ++
          String.intercalate ", " SUPPORTED_VERSIONS⟩]
      else []
  | none => []

/-- The items-count versus chain-length check of verifyBundle. -/
def lengthErrors (items : List EvidenceItem) (chain : List HashChainLink) :
    List VerificationError :=
  if items.length ≠ chain.length then
    [⟨some .LENGTH_MISMATCH, "Items count (" ++ toString items.length ++
      ") does not match chain length (" ++ toString chain.length ++ ")"⟩]
  else []

/-- The per-index cross-check between one item and its chain link. -/
def crossIndexErrors (item : EvidenceItem) (link : HashChainLink) (seq : Nat) :
    List VerificationError :=
  (if item.sequence ≠ seq then
    [⟨some .SEQUENCE_GAP, "Item " ++ toString seq ++ " has sequence " ++
      toString item.sequence ++ ", expected " ++ toString seq⟩]
  else []) ++
  (if safeEqual item.content_hash link.content_hash then []
  else [⟨some .CONTENT_HASH_MISMATCH,
    "Item " ++ toString seq ++ " content_hash does not match chain link"⟩]) ++
  (match link.item_id with
  | some linkItemId =>
      if safeEqual item.item_id linkItemId then []
      else [⟨some .CONTENT_HASH_MISMATCH,
        "Item " ++ toString seq ++ " item_id does not match chain link"⟩]
  | none => []) ++
  (match link.content_type with
  | some linkContentType =>
      if safeEqual item.content_type linkContentType then []
      else [⟨some .CONTENT_HASH_MISMATCH,
        "Item " ++ toString seq ++ " content_type does not match chain link"⟩]
  | none => [])

/-- The cross-check loop of verifyBundle (runs while both lists have an
element at the index, i.e. up to the shorter length). -/
def crossErrors : List EvidenceItem → List HashChainLink → Nat → List VerificationError
  | item :: restItems, link :: restLinks, seq =>
      crossIndexErrors item link seq ++ crossErrors restItems restLinks (seq + 1)
  | _, _, _ => []

/-- verify.ts verifyBundle: required fields and version value first; early
failing return when items or the proof is entirely absent; otherwise every
stage runs and all errors are accumulated in order. -/
def verifyBundle (o : CryptoOracle) (bundle : EvidenceBundle)
    (options : Option VerifyOptions) : VerificationResult :=
  let baseErrors := fieldErrors bundle ++ versionErrors bundle
  match bundle.items, bundle.immutability_proof with
  | some items, some proof =>
      let allErrors := baseErrors ++
        (verifyContentHashes o items).errors ++
        (verifyHashChain o proof.hash_chain options).errors ++
        (verifyRootHash o proof).errors ++
        lengthErrors items proof.hash_chain ++
        crossErrors items proof.hash_chain 0 ++
        (verifySignatures o bundle options).errors
      ⟨allErrors.isEmpty, allErrors⟩
  | _, _ => ⟨false, baseErrors⟩

/-! ## Concrete material shared by witnesses -/

/-- A bundle assembled from a seal result plus caller-chosen header fields,
exactly as the repository's own tests assemble one. -/
def assembleBundle (bundleId version createdAt : String) (r : SealResult) : EvidenceBundle :=
  { bundle_id := some bundleId, version := some version, created_at := some createdAt,
    items := some r.items, immutability_proof := some r.immutabilityProof }

/-- A concrete hash oracle for witnesses: the digest of a string is the
string itself (injective, so distinct canonical texts get distinct hashes). -/
def idOracle : CryptoOracle :=
  { hashHex := fun s => s, hmacSha256Base64 := fun _ _ => "",
    base64Bytes := fun _ => [], asymVerify := fun _ _ _ _ => false }

/-- A second concrete oracle, everywhere different from idOracle on nonempty
strings, used to witness oracle-independence statements. -/
def zeroOracle : CryptoOracle :=
  { hashHex := fun _ => "", hmacSha256Base64 := fun _ _ => "",
    base64Bytes := fun _ => [], asymVerify := fun _ _ _ _ => false }

/-- Extract a seal result, defaulting to an empty one (used only to name the
result of a seal that is proven to succeed). -/
def sealOrEmpty (r : Except String SealResult) : SealResult :=
  match r with
  | .ok v => v
  | .error _ => ⟨⟨[], ""⟩, []⟩

/-! ## Theory: safeEqual is string equality -/

/-- A UTF-8 decoding step; only used as a left inverse of encodeUtf8Char. -/
def decodeUtf8Lead : List Nat → Option (Nat × List Nat)
  | [] => none
  | b :: rest =>
      if b < 0x80 then some (b, rest)
      else if b < 0xE0 then
        match rest with
        | b1 :: r => some ((b - 0xC0) * 64 + (b1 - 0x80), r)
        | [] => none
      else if b < 0xF0 then
        match rest with
        | b1 :: b2 :: r => some ((b - 0xE0) * 4096 + (b1 - 0x80) * 64 + (b2 - 0x80), r)
        | _ => none
      else
        match rest with
        | b1 :: b2 :: b3 :: r =>
            some ((b - 0xF0) * 262144 + (b1 - 0x80) * 4096 + (b2 - 0x80) * 64 + (b3 - 0x80), r)
        | _ => none

theorem decodeUtf8Lead_encode (c : Nat) (h : c < 0x110000) (r : List Nat) :
    decodeUtf8Lead (encodeUtf8Char c ++ r) = some (c, r) := by
  rcases Nat.lt_or_ge c 0x80 with h1 | h1
  · have hEnc : encodeUtf8Char c = [c] := by
      unfold encodeUtf8Char
      rw [if_pos h1]
    rw [hEnc]
    simp only [List.cons_append, List.nil_append, decodeUtf8Lead]
    rw [if_pos h1]
  · rcases Nat.lt_or_ge c 0x800 with h2 | h2
    · have hEnc : encodeUtf8Char c = [0xC0 + c / 64, 0x80 + c % 64] := by
        unfold encodeUtf8Char
        rw [if_neg (by omega), if_pos h2]
      rw [hEnc]
      simp only [List.cons_append, List.nil_append, decodeUtf8Lead]
      rw [if_neg (by omega : ¬ 0xC0 + c / 64 < 0x80), if_pos (by omega : 0xC0 + c / 64 < 0xE0)]
      exact congrArg (fun x => some (x, r)) (by omega)
    · rcases Nat.lt_or_ge c 0x10000 with h3 | h3
      · have hEnc : encodeUtf8Char c = [0xE0 + c / 4096, 0x80 + c / 64 % 64, 0x80 + c % 64] := by
          unfold encodeUtf8Char
          rw [if_neg (by omega), if_neg (by omega), if_pos h3]
        rw [hEnc]
        simp only [List.cons_append, List.nil_append, decodeUtf8Lead]
        rw [if_neg (by omega : ¬ 0xE0 + c / 4096 < 0x80),
          if_neg (by omega : ¬ 0xE0 + c / 4096 < 0xE0),
          if_pos (by omega : 0xE0 + c / 4096 < 0xF0)]
        exact congrArg (fun x => some (x, r)) (by omega)
      · have hEnc : encodeUtf8Char c =
            [0xF0 + c / 262144, 0x80 + c / 4096 % 64, 0x80 + c / 64 % 64, 0x80 + c % 64] := by
          unfold encodeUtf8Char
          rw [if_neg (by omega), if_neg (by omega), if_neg (by omega)]
        rw [hEnc]
        simp only [List.cons_append, List.nil_append, decodeUtf8Lead]
        rw [if_neg (by omega : ¬ 0xF0 + c / 262144 < 0x80),
          if_neg (by omega : ¬ 0xF0 + c / 262144 < 0xE0),
          if_neg (by omega : ¬ 0xF0 + c / 262144 < 0xF0)]
        exact congrArg (fun x => some (x, r)) (by omega)

theorem encodeUtf8Char_ne_nil (c : Nat) : encodeUtf8Char c ≠ [] := by
  unfold encodeUtf8Char
  split_ifs <;> simp

theorem char_toNat_lt (c : Char) : c.toNat < 0x110000 := by
  have h := c.valid
  simp only [Char.toNat]
  rcases h with h | h
  · omega
  · omega

theorem utf8Data_inj : ∀ l1 l2 : List Char,
    (l1.flatMap fun c => encodeUtf8Char c.toNat) = (l2.flatMap fun c => encodeUtf8Char c.toNat) →
    l1 = l2 := by
  intro l1
  induction l1 with
  | nil =>
      intro l2 h
      cases l2 with
      | nil => rfl
      | cons d ds =>
          exfalso
          simp only [List.flatMap_nil, List.flatMap_cons] at h
          exact encodeUtf8Char_ne_nil d.toNat (List.append_eq_nil.mp h.symm).1
  | cons c cs ih =>
      intro l2 h
      cases l2 with
      | nil =>
          exfalso
          simp only [List.flatMap_nil, List.flatMap_cons] at h
          exact encodeUtf8Char_ne_nil c.toNat (List.append_eq_nil.mp h).1
      | cons d ds =>
          simp only [List.flatMap_cons] at h
          have h1 := decodeUtf8Lead_encode c.toNat (char_toNat_lt c)
            (cs.flatMap fun x => encodeUtf8Char x.toNat)
          have h2 := decodeUtf8Lead_encode d.toNat (char_toNat_lt d)
            (ds.flatMap fun x => encodeUtf8Char x.toNat)
          rw [h, h2] at h1
          have hfst : d.toNat = c.toNat := (Prod.mk.injEq _ _ _ _).mp (Option.some.inj h1) |>.1
          have hsnd := ((Prod.mk.injEq _ _ _ _).mp (Option.some.inj h1)).2
          have hdc : d = c := by
            have h3 := congrArg Char.ofNat hfst
            rwa [Char.ofNat_toNat, Char.ofNat_toNat] at h3
          subst hdc
          rw [ih ds hsnd.symm]

theorem utf8Bytes_inj {a b : String} (h : utf8Bytes a = utf8Bytes b) : a = b := by
  have hd := utf8Data_inj a.data b.data h
  cases a
  cases b
  exact congrArg String.mk hd

theorem safeEqual_refl (s : String) : safeEqual s s = true := by
  simp [safeEqual, timingSafeEqual]

/-- Shared helper: the constant-time comparison decides string equality. -/
theorem safeEqual_eq_true_iff (a b : String) : safeEqual a b = true ↔ a = b := by
  constructor
  · intro h
    simp only [safeEqual, timingSafeEqual] at h
    by_cases hl : (utf8Bytes a).length ≠ (utf8Bytes b).length
    · rw [if_pos hl] at h
      exact absurd h (by simp)
    · rw [if_neg hl] at h
      exact utf8Bytes_inj (by simpa using h)
  · rintro rfl
    exact safeEqual_refl a

theorem safeEqual_eq_false_of_ne {a b : String} (h : a ≠ b) : safeEqual a b = false := by
  cases hs : safeEqual a b
  · rfl
  · exact absurd ((safeEqual_eq_true_iff a b).mp hs) h

/-! ## Theory: the member sort is sorted -/

theorem unitsLe_total : ∀ xs ys : List Nat, unitsLe xs ys = true ∨ unitsLe ys xs = true := by
  intro xs
  induction xs with
  | nil => intro ys; left; rfl
  | cons x xs ih =>
      intro ys
      cases ys with
      | nil => right; rfl
      | cons y ys =>
          rcases Nat.lt_trichotomy x y with hxy | hxy | hxy
          · left
            simp [unitsLe, hxy]
          · subst hxy
            rcases ih ys with h | h
            · left
              simpa [unitsLe] using h
            · right
              simpa [unitsLe] using h
          · right
            simp [unitsLe, hxy]

theorem unitsLe_trans : ∀ xs ys zs : List Nat,
    unitsLe xs ys = true → unitsLe ys zs = true → unitsLe xs zs = true := by
  intro xs
  induction xs with
  | nil => intro ys zs _ _; rfl
  | cons x xs ih =>
      intro ys zs h1 h2
      cases ys with
      | nil => exact absurd h1 (by simp [unitsLe])
      | cons y ys =>
          cases zs with
          | nil => exact absurd h2 (by simp [unitsLe])
          | cons z zs =>
              simp only [unitsLe] at h1 h2 ⊢
              rcases Nat.lt_trichotomy x y with hxy | hxy | hxy
              · rcases Nat.lt_trichotomy y z with hyz | hyz | hyz
                · rw [if_pos (by omega)]
                · rw [if_pos (by omega)]
                · rw [if_pos hyz, if_neg (by omega)] at h2
                  exact absurd h2 (by simp)
              · subst hxy
                rcases Nat.lt_trichotomy x z with hxz | hxz | hxz
                · rw [if_pos hxz]
                · subst hxz
                  rw [if_neg (by omega), if_neg (by omega)] at h1 h2 ⊢
                  exact ih ys zs h1 h2
                · rw [if_neg (by omega), if_pos hxz] at h2
                  exact absurd h2 (by simp)
              · rw [if_neg (by omega), if_pos hxy] at h1
                exact absurd h1 (by simp)

theorem keyLeB_total (a b : String) : keyLeB a b = true ∨ keyLeB b a = true :=
  unitsLe_total (utf16Units a) (utf16Units b)

theorem keyLeB_trans {a b c : String} (h1 : keyLeB a b = true) (h2 : keyLeB b c = true) :
    keyLeB a c = true :=
  unitsLe_trans (utf16Units a) (utf16Units b) (utf16Units c) h1 h2

/-- The member order used for sorting. -/
def memberLeB (p q : String × Option String) : Bool := keyLeB p.1 q.1

theorem mem_insertMember {p q : String × Option String} :
    ∀ l : List (String × Option String), q ∈ insertMember p l → q = p ∨ q ∈ l := by
  intro l
  induction l with
  | nil =>
      intro h
      simp only [insertMember, List.mem_singleton] at h
      exact Or.inl h
  | cons x xs ih =>
      intro h
      simp only [insertMember] at h
      by_cases hle : keyLeB p.1 x.1
      · rw [if_pos hle] at h
        rcases List.mem_cons.mp h with h1 | h1
        · exact Or.inl h1
        · exact Or.inr h1
      · rw [if_neg hle] at h
        rcases List.mem_cons.mp h with h1 | h1
        · exact Or.inr (List.mem_cons.mpr (Or.inl h1))
        · rcases ih h1 with h2 | h2
          · exact Or.inl h2
          · exact Or.inr (List.mem_cons.mpr (Or.inr h2))

theorem pairwise_insertMember {p : String × Option String}
    {l : List (String × Option String)}
    (hl : l.Pairwise fun a b => memberLeB a b = true) :
    (insertMember p l).Pairwise fun a b => memberLeB a b = true := by
  induction l with
  | nil => simp [insertMember]
  | cons x xs ih =>
      rcases List.pairwise_cons.mp hl with ⟨hx, hxs⟩
      simp only [insertMember]
      by_cases hle : keyLeB p.1 x.1
      · rw [if_pos hle]
        refine List.pairwise_cons.mpr ⟨?_, hl⟩
        intro b hb
        rcases List.mem_cons.mp hb with hb1 | hb1
        · rw [hb1]
          exact hle
        · exact keyLeB_trans hle (hx b hb1)
      · rw [if_neg hle]
        refine List.pairwise_cons.mpr ⟨?_, ih hxs⟩
        intro b hb
        rcases mem_insertMember _ hb with hb1 | hb1
        · rw [hb1]
          rcases keyLeB_total p.1 x.1 with h | h
          · exact absurd h hle
          · exact h
        · exact hx b hb1

theorem pairwise_sortMembers (l : List (String × Option String)) :
    (sortMembers l).Pairwise fun a b => memberLeB a b = true := by
  induction l with
  | nil => simp [sortMembers]
  | cons x xs ih => exact pairwise_insertMember ih

theorem keys_filterMap_sublist (l : List (String × Option String)) :
    List.Sublist (l.filterMap fun p => p.2.map fun _ => p.1) (l.map Prod.fst) := by
  induction l with
  | nil => simp
  | cons x xs ih =>
      cases hx : x.2 with
      | none => simpa [List.filterMap_cons, hx] using ih.cons x.1
      | some v => simpa [List.filterMap_cons, hx] using ih.cons₂ x.1

/-- The emitted key sequence of any object is sorted in the JS comparator
order (UTF-16 code-unit lexicographic). -/
theorem emittedKeys_pairwise (members : List (String × JsonValue)) :
    (emittedKeys members).Pairwise fun a b => keyLeB a b = true := by
  have hp := pairwise_sortMembers (serializeMembers members)
  have hmap : ((sortMembers (serializeMembers members)).map Prod.fst).Pairwise
      fun a b => keyLeB a b = true :=
    List.Pairwise.map Prod.fst (fun a b h => h) hp
  exact hmap.sublist (keys_filterMap_sublist _)

/-! ## Theory: sealed chains -/

/-- The ChainInput a valid partial item is mapped to inside sealBundle. -/
def toChainInput (p : PartialItem) : ChainInput :=
  { content := normalizeContent p.content, contentType := p.content_type,
    contentId := p.item_id }

theorem validateItems_ok : ∀ (pitems : List PartialItem) (idx : Nat) (ins : List ChainInput),
    validateItems pitems idx = .ok ins → ins = pitems.map toChainInput := by
  intro pitems
  induction pitems with
  | nil =>
      intro idx ins h
      simp only [validateItems] at h
      cases h
      rfl
  | cons p ps ih =>
      intro idx ins h
      simp only [validateItems] at h
      by_cases h1 : p.item_id = ""
      · rw [if_pos h1] at h
        exact absurd h (by simp)
      · rw [if_neg h1] at h
        by_cases h2 : p.content_type = ""
        · rw [if_pos h2] at h
          exact absurd h (by simp)
        · rw [if_neg h2] at h
          cases hv : validateItems ps (idx + 1) with
          | error e =>
              rw [hv] at h
              exact absurd h (by simp [Bind.bind, Except.bind])
          | ok tail =>
              rw [hv] at h
              simp only [Bind.bind, Except.bind, pure, Except.pure, Except.ok.injEq] at h
              rw [← h, ih (idx + 1) tail hv]
              rfl

theorem chainLoop_length (o : CryptoOracle) (v : ProofVersion) :
    ∀ (inputs : List ChainInput) (seq : Nat) (prev : String),
    (chainLoop o v inputs seq prev).length = inputs.length := by
  intro inputs
  induction inputs with
  | nil => intro seq prev; rfl
  | cons inp rest ih =>
      intro seq prev
      simp only [chainLoop, List.length_cons]
      rw [ih]

theorem buildSealedItems_length :
    ∀ (pitems : List PartialItem) (chain : List HashChainLink) (idx : Nat),
    (buildSealedItems pitems chain idx).length = min pitems.length chain.length := by
  intro pitems
  induction pitems with
  | nil =>
      intro chain idx
      cases chain <;> simp [buildSealedItems]
  | cons p ps ih =>
      intro chain idx
      cases chain with
      | nil => simp [buildSealedItems]
      | cons link links =>
          simp only [buildSealedItems, List.length_cons]
          rw [ih]
          omega

theorem chainVerify_clean (o : CryptoOracle) :
    ∀ (inputs : List ChainInput) (seq : Nat) (prev : String),
    chainLoopVerify o [.v020] (chainLoop o .v020 inputs seq prev) seq prev = [] := by
  intro inputs
  induction inputs with
  | nil => intro seq prev; rfl
  | cons inp rest ih =>
      intro seq prev
      simp only [chainLoop, chainLoopVerify]
      rw [ih]
      simp [chainLinkErrors, safeEqual_refl]

theorem contentHashes_clean (o : CryptoOracle) :
    ∀ (pitems : List PartialItem) (seq : Nat) (prev : String) (idx : Nat),
    (buildSealedItems pitems (chainLoop o .v020 (pitems.map toChainInput) seq prev) idx).flatMap
      (itemContentErrors o) = [] := by
  intro pitems
  induction pitems with
  | nil => intro seq prev idx; rfl
  | cons p ps ih =>
      intro seq prev idx
      simp only [List.map_cons, chainLoop, buildSealedItems, List.flatMap_cons]
      rw [ih]
      simp [itemContentErrors, toChainInput, computeContentHash, safeEqual_refl]

theorem crossErrors_clean (o : CryptoOracle) :
    ∀ (pitems : List PartialItem) (prev : String) (seq : Nat),
    crossErrors (buildSealedItems pitems (chainLoop o .v020 (pitems.map toChainInput) seq prev) seq)
      (chainLoop o .v020 (pitems.map toChainInput) seq prev) seq = [] := by
  intro pitems
  induction pitems with
  | nil => intro prev seq; rfl
  | cons p ps ih =>
      intro prev seq
      simp only [List.map_cons, chainLoop, buildSealedItems, crossErrors]
      rw [ih]
      simp [crossIndexErrors, toChainInput, safeEqual_refl]

theorem verifyContentHashes_sealed (o : CryptoOracle) (p0 : PartialItem) (ps : List PartialItem)
    (seq idx : Nat) (prev : String) :
    verifyContentHashes o
      (buildSealedItems (p0 :: ps) (chainLoop o .v020 ((p0 :: ps).map toChainInput) seq prev) idx) =
      ⟨true, []⟩ := by
  have h := contentHashes_clean o (p0 :: ps) seq prev idx
  have hie : (buildSealedItems (p0 :: ps)
      (chainLoop o .v020 ((p0 :: ps).map toChainInput) seq prev) idx).isEmpty = false := by
    simp only [List.map_cons, chainLoop, buildSealedItems]
    rfl
  simp only [verifyContentHashes, hie, Bool.false_eq_true, if_false, h]
  rfl

theorem verifyHashChain_sealed (o : CryptoOracle) (p0 : PartialItem) (ps : List PartialItem) :
    verifyHashChain o (chainLoop o .v020 ((p0 :: ps).map toChainInput) 0 GENESIS_HASH) none =
      ⟨true, []⟩ := by
  have h := chainVerify_clean o ((p0 :: ps).map toChainInput) 0 GENESIS_HASH
  have hie : (chainLoop o .v020 ((p0 :: ps).map toChainInput) 0 GENESIS_HASH).isEmpty = false := by
    simp only [List.map_cons, chainLoop]
    rfl
  simp only [verifyHashChain, resolveAcceptedProofVersions, hie, Bool.false_eq_true, if_false, h]
  rfl

theorem verifyRootHash_sealed (o : CryptoOracle) (p0 : PartialItem) (ps : List PartialItem)
    (seq : Nat) (prev : String) :
    verifyRootHash o
      { hash_chain := chainLoop o .v020 ((p0 :: ps).map toChainInput) seq prev,
        root_hash := computeRootHash o (chainLoop o .v020 ((p0 :: ps).map toChainInput) seq prev) } =
      ⟨true, []⟩ := by
  have hie : (chainLoop o .v020 ((p0 :: ps).map toChainInput) seq prev).isEmpty = false := by
    simp only [List.map_cons, chainLoop]
    rfl
  simp only [verifyRootHash, hie, Bool.false_eq_true, if_false, computeRootHash, safeEqual_refl,
    if_true]

/-- C1: Round trip. For every non-empty list of partial items with non-empty,
pairwise-distinct item ids and non-empty content types, verifying the bundle
assembled from a successful seal (with any bundle_id and created_at and an
accepted version string) yields valid true with an empty errors list. -/
theorem seal_verify_roundtrip (o : CryptoOracle) (pitems : List PartialItem) (r : SealResult)
    (bundleId version createdAt : String)
    (hne : pitems ≠ [])
    (hvalid : ∀ p ∈ pitems, p.item_id ≠ "" ∧ p.content_type ≠ "")
    (hdistinct : (pitems.map fun p => p.item_id).Nodup)
    (hver : version ∈ SUPPORTED_VERSIONS)
    (hseal : sealBundle o pitems none = Except.ok r) :
    verifyBundle o (assembleBundle bundleId version createdAt r) none = ⟨true, []⟩ := by
  have hie : pitems.isEmpty = false := by
    cases pitems with
    | nil => exact absurd rfl hne
    | cons a l => rfl
  unfold sealBundle at hseal
  rw [if_neg (by simp [hie])] at hseal
  cases hv : validateItems pitems 0 with
  | error e =>
      rw [hv] at hseal
      exact absurd hseal (by simp [Bind.bind, Except.bind])
  | ok ins =>
      rw [hv] at hseal
      simp only [Bind.bind, Except.bind] at hseal
      cases hb : buildHashChain o ins none with
      | error e =>
          rw [hb] at hseal
          exact absurd hseal (by simp)
      | ok chain =>
          rw [hb] at hseal
          simp only [pure, Except.pure, Except.ok.injEq] at hseal
          have hins : ins = pitems.map toChainInput := validateItems_ok pitems 0 ins hv
          have hchain : chain = chainLoop o .v020 ins 0 GENESIS_HASH := by
            unfold buildHashChain at hb
            by_cases hlen : ins.length > MAX_CHAIN_ITEMS
            · rw [if_pos hlen] at hb
              exact absurd hb (by simp)
            · rw [if_neg hlen] at hb
              have := Except.ok.inj hb
              rw [← this]
              rfl
          subst hchain
          subst hins
          obtain ⟨p0, ps, rfl⟩ : ∃ p0 ps, pitems = p0 :: ps := by
            cases pitems with
            | nil => exact absurd rfl hne
            | cons a l => exact ⟨a, l, rfl⟩
          have hver0 : version = "0.2.0" := by
            simpa [SUPPORTED_VERSIONS] using hver
          subst hver0
          rw [← hseal]
          simp only [verifyBundle, assembleBundle]
          rw [verifyContentHashes_sealed, verifyHashChain_sealed, verifyRootHash_sealed]
          have hlen2 : lengthErrors
              (buildSealedItems (p0 :: ps)
                (chainLoop o .v020 ((p0 :: ps).map toChainInput) 0 GENESIS_HASH) 0)
              (chainLoop o .v020 ((p0 :: ps).map toChainInput) 0 GENESIS_HASH) = [] := by
            unfold lengthErrors
            rw [if_neg]
            rw [buildSealedItems_length, chainLoop_length]
            simp
          rw [hlen2, crossErrors_clean o (p0 :: ps) GENESIS_HASH 0]
          simp [fieldErrors, missingField, versionErrors, SUPPORTED_VERSIONS, verifySignatures]

/-- Concrete items used to witness the round trip. -/
def w1items : List PartialItem :=
  [⟨"i1", "test/a", .jobj [("val", .jnum 1)]⟩, ⟨"i2", "test/b", .jobj [("val", .jnum 2)]⟩]

/-- The concrete seal result of w1items under idOracle. -/
def w1result : SealResult := sealOrEmpty (sealBundle idOracle w1items none)

/-- C1 witness: the round trip at a concrete two-item bundle. -/
theorem seal_verify_roundtrip_witness :
    verifyBundle idOracle (assembleBundle "bundle-1" "0.2.0" "2026-01-29T00:00:00Z" w1result)
      none = ⟨true, []⟩ :=
  seal_verify_roundtrip idOracle w1items w1result "bundle-1" "0.2.0" "2026-01-29T00:00:00Z"
    (by unfold w1items; simp) (by decide) (by decide) (by decide) (by rfl)

/-- A list containing a member is not empty. -/
theorem isEmpty_false_of_mem {α : Type} {x : α} {l : List α} (h : x ∈ l) :
    l.isEmpty = false := by
  cases l with
  | nil => exact absurd h (by simp)
  | cons a t => rfl

/-- Setting an element at a valid index puts it in the list. -/
theorem mem_set_self {α : Type} : ∀ (l : List α) (i : Nat), i < l.length → ∀ a : α, a ∈ l.set i a := by
  intro l
  induction l with
  | nil =>
      intro i h a
      exact absurd h (by simp)
  | cons x xs ih =>
      intro i h a
      cases i with
      | zero => simp [List.set]
      | succ j =>
          simp only [List.set]
          exact List.mem_cons.mpr (Or.inr (ih j (by simpa using h) a))

/-- Any error produced by the content-hash stage is in verifyBundle's error
list, and makes the bundle invalid. -/
theorem verifyBundle_mem_of_content (o : CryptoOracle) (bundle : EvidenceBundle)
    (items : List EvidenceItem) (proof : ImmutabilityProof) (options : Option VerifyOptions)
    (hitems : bundle.items = some items) (hproof : bundle.immutability_proof = some proof)
    (hie : items.isEmpty = false) {e : VerificationError}
    (he : e ∈ items.flatMap (itemContentErrors o)) :
    e ∈ (verifyBundle o bundle options).errors ∧ (verifyBundle o bundle options).valid = false := by
  have hc : (verifyContentHashes o items).errors = items.flatMap (itemContentErrors o) := by
    simp only [verifyContentHashes, hie, Bool.false_eq_true, if_false]
  obtain ⟨bid, ver, cat, pid, aid, rt, its, ip, sigs, md⟩ := bundle
  dsimp only at hitems hproof
  subst hitems
  subst hproof
  unfold verifyBundle
  dsimp only
  rw [hc]
  refine ⟨?_, ?_⟩
  · simp only [List.mem_append]
    exact Or.inl (Or.inl (Or.inl (Or.inl (Or.inl (Or.inr he)))))
  · refine @isEmpty_false_of_mem _ e _ ?_
    simp only [List.mem_append]
    exact Or.inl (Or.inl (Or.inl (Or.inl (Or.inl (Or.inr he)))))

/-- C2: Tamper detection. Replacing one sealed item's content with content
whose hash differs from the stored content_hash makes verifyBundle invalid
and produces a CONTENT_HASH_MISMATCH error naming that item. -/
theorem tamper_detection (o : CryptoOracle) (pitems : List PartialItem) (r : SealResult)
    (bundleId version createdAt : String) (i : Nat) (newContent : JsonValue)
    (hseal : sealBundle o pitems none = Except.ok r)
    (hi : i < r.items.length)
    (hdiff : computeContentHash o newContent ≠ (r.items.get ⟨i, hi⟩).content_hash) :
    (verifyBundle o
      { assembleBundle bundleId version createdAt r with
        items := some (r.items.set i { r.items.get ⟨i, hi⟩ with content := newContent }) }
      none).valid = false ∧
    ∃ e ∈ (verifyBundle o
      { assembleBundle bundleId version createdAt r with
        items := some (r.items.set i { r.items.get ⟨i, hi⟩ with content := newContent }) }
      none).errors,
      e.code = some ErrorCode.CONTENT_HASH_MISMATCH ∧
      e.message = "Content hash mismatch for item " ++ (r.items.get ⟨i, hi⟩).item_id := by
  have hlen2 : i < (r.items.set i
      { r.items.get ⟨i, hi⟩ with content := newContent }).length := by
    rw [List.length_set]
    exact hi
  have hmem : ({ r.items.get ⟨i, hi⟩ with content := newContent } : EvidenceItem) ∈
      r.items.set i { r.items.get ⟨i, hi⟩ with content := newContent } :=
    mem_set_self r.items i hi _
  have hS : safeEqual ({ r.items.get ⟨i, hi⟩ with content := newContent} : EvidenceItem).content_hash
      (computeContentHash o ({ r.items.get ⟨i, hi⟩ with content := newContent} : EvidenceItem).content) =
      false := safeEqual_eq_false_of_ne (Ne.symm hdiff)
  have hcerr : itemContentErrors o { r.items.get ⟨i, hi⟩ with content := newContent } =
      [⟨some ErrorCode.CONTENT_HASH_MISMATCH,
        "Content hash mismatch for item " ++ (r.items.get ⟨i, hi⟩).item_id⟩] := by
    simp only [itemContentErrors, hS, Bool.false_eq_true, if_false]
  have hflat : (⟨some ErrorCode.CONTENT_HASH_MISMATCH,
      "Content hash mismatch for item " ++ (r.items.get ⟨i, hi⟩).item_id⟩ : VerificationError) ∈
      (r.items.set i { r.items.get ⟨i, hi⟩ with content := newContent }).flatMap
        (itemContentErrors o) :=
    List.mem_flatMap.mpr ⟨{ r.items.get ⟨i, hi⟩ with content := newContent }, hmem,
      by rw [hcerr]; exact List.mem_singleton_self _⟩
  have hie2 : (r.items.set i { r.items.get ⟨i, hi⟩ with content := newContent }).isEmpty = false := by
    cases hc2 : r.items.set i { r.items.get ⟨i, hi⟩ with content := newContent } with
    | nil =>
        rw [hc2] at hlen2
        exact absurd hlen2 (by simp)
    | cons a t => rfl
  obtain ⟨h1, h2⟩ := verifyBundle_mem_of_content o
    { assembleBundle bundleId version createdAt r with
      items := some (r.items.set i { r.items.get ⟨i, hi⟩ with content := newContent }) }
    (r.items.set i { r.items.get ⟨i, hi⟩ with content := newContent })
    r.immutabilityProof none rfl rfl hie2 hflat
  exact ⟨h2, ⟨_, h1, rfl, rfl⟩⟩

/-- Concrete items used to witness tamper detection. -/
def w2items : List PartialItem :=
  [⟨"t1", "test/x", .jobj [("val", .jnum 7)]⟩, ⟨"t2", "test/y", .jobj [("val", .jnum 8)]⟩]

/-- The concrete seal result of w2items under idOracle. -/
def w2result : SealResult := sealOrEmpty (sealBundle idOracle w2items none)

/-- The witness bundle has an item at index 0. -/
theorem w2items_len : 0 < w2result.items.length := by decide

/-- C2 witness: tampering with item 0 of a concrete sealed bundle. -/
theorem tamper_detection_witness :
    (verifyBundle idOracle
      { assembleBundle "b2" "0.2.0" "2026-01-01T00:00:00Z" w2result with
        items := some (w2result.items.set 0
          { w2result.items.get ⟨0, w2items_len⟩ with content := .jobj [("val", .jnum 99)] }) }
      none).valid = false ∧
    ∃ e ∈ (verifyBundle idOracle
      { assembleBundle "b2" "0.2.0" "2026-01-01T00:00:00Z" w2result with
        items := some (w2result.items.set 0
          { w2result.items.get ⟨0, w2items_len⟩ with content := .jobj [("val", .jnum 99)] }) }
      none).errors,
      e.code = some ErrorCode.CONTENT_HASH_MISMATCH ∧
      e.message = "Content hash mismatch for item " ++ (w2result.items.get ⟨0, w2items_len⟩).item_id :=
  tamper_detection idOracle w2items w2result "b2" "0.2.0" "2026-01-01T00:00:00Z" 0
    (.jobj [("val", .jnum 99)]) (by rfl) w2items_len (by decide)

/-! ## Per-index characterization of built chains -/

theorem chainLoop_get_sequence (o : CryptoOracle) :
    ∀ (inputs : List ChainInput) (seq : Nat) (prev : String) (i : Nat)
      (hi : i < (chainLoop o .v020 inputs seq prev).length),
      ((chainLoop o .v020 inputs seq prev).get ⟨i, hi⟩).sequence = seq + i := by
  intro inputs
  induction inputs with
  | nil =>
      intro seq prev i hi
      exact absurd hi (by simp [chainLoop])
  | cons inp rest ih =>
      intro seq prev i hi
      cases i with
      | zero => rfl
      | succ j =>
          have h2 := ih (seq + 1)
            (chainHashV020 o seq inp.contentId inp.contentType
              (computeContentHash o inp.content) prev) j (by
                have := hi
                simp only [chainLoop, List.length_cons] at this
                simpa using this)
          simp only [chainLoop, List.get_cons_succ] at h2 ⊢
          rw [h2]
          omega

theorem chainLoop_get_content_hash (o : CryptoOracle) :
    ∀ (inputs : List ChainInput) (seq : Nat) (prev : String) (i : Nat)
      (hi : i < (chainLoop o .v020 inputs seq prev).length) (hii : i < inputs.length),
      ((chainLoop o .v020 inputs seq prev).get ⟨i, hi⟩).content_hash =
        computeContentHash o (inputs.get ⟨i, hii⟩).content := by
  intro inputs
  induction inputs with
  | nil =>
      intro seq prev i hi hii
      exact absurd hi (by simp [chainLoop])
  | cons inp rest ih =>
      intro seq prev i hi hii
      cases i with
      | zero => rfl
      | succ j =>
          have h2 := ih (seq + 1)
            (chainHashV020 o seq inp.contentId inp.contentType
              (computeContentHash o inp.content) prev) j (by
                have := hi
                simp only [chainLoop, List.length_cons] at this
                simpa using this) (by simpa using hii)
          simp only [chainLoop, List.get_cons_succ] at h2 ⊢
          rw [h2]

theorem chainLoop_get_ids (o : CryptoOracle) :
    ∀ (inputs : List ChainInput) (seq : Nat) (prev : String) (i : Nat)
      (hi : i < (chainLoop o .v020 inputs seq prev).length) (hii : i < inputs.length),
      ((chainLoop o .v020 inputs seq prev).get ⟨i, hi⟩).item_id =
        some (inputs.get ⟨i, hii⟩).contentId ∧
      ((chainLoop o .v020 inputs seq prev).get ⟨i, hi⟩).content_type =
        some (inputs.get ⟨i, hii⟩).contentType := by
  intro inputs
  induction inputs with
  | nil =>
      intro seq prev i hi hii
      exact absurd hi (by simp [chainLoop])
  | cons inp rest ih =>
      intro seq prev i hi hii
      cases i with
      | zero => exact ⟨rfl, rfl⟩
      | succ j =>
          have h2 := ih (seq + 1)
            (chainHashV020 o seq inp.contentId inp.contentType
              (computeContentHash o inp.content) prev) j (by
                have := hi
                simp only [chainLoop, List.length_cons] at this
                simpa using this) (by simpa using hii)
          simp only [chainLoop, List.get_cons_succ] at h2 ⊢
          exact h2

theorem chainLoop_get_zero_previous (o : CryptoOracle) :
    ∀ (inputs : List ChainInput) (seq : Nat) (prev : String)
      (h0 : 0 < (chainLoop o .v020 inputs seq prev).length),
      ((chainLoop o .v020 inputs seq prev).get ⟨0, h0⟩).previous_hash = prev := by
  intro inputs seq prev h0
  cases inputs with
  | nil => exact absurd h0 (by simp [chainLoop])
  | cons inp rest => rfl

theorem chainLoop_get_succ_previous (o : CryptoOracle) :
    ∀ (inputs : List ChainInput) (seq : Nat) (prev : String) (j : Nat)
      (hj1 : j + 1 < (chainLoop o .v020 inputs seq prev).length)
      (hj : j < (chainLoop o .v020 inputs seq prev).length),
      ((chainLoop o .v020 inputs seq prev).get ⟨j + 1, hj1⟩).previous_hash =
        ((chainLoop o .v020 inputs seq prev).get ⟨j, hj⟩).chain_hash := by
  intro inputs
  induction inputs with
  | nil =>
      intro seq prev j hj1 hj
      exact absurd hj (by simp [chainLoop])
  | cons inp rest ih =>
      intro seq prev j hj1 hj
      cases j with
      | zero =>
          have h0 : 0 < (chainLoop o .v020 rest (seq + 1)
              (chainHashV020 o seq inp.contentId inp.contentType
                (computeContentHash o inp.content) prev)).length := by
            have := hj1
            simp only [chainLoop, List.length_cons] at this
            simpa using this
          have hz := chainLoop_get_zero_previous o rest (seq + 1)
            (chainHashV020 o seq inp.contentId inp.contentType
              (computeContentHash o inp.content) prev) h0
          simp only [chainLoop, List.get_cons_succ]
          exact hz
      | succ k =>
          have hk1 : k + 1 < (chainLoop o .v020 rest (seq + 1)
              (chainHashV020 o seq inp.contentId inp.contentType
                (computeContentHash o inp.content) prev)).length := by
            have := hj1
            simp only [chainLoop, List.length_cons] at this
            simpa using this
          have hk : k < (chainLoop o .v020 rest (seq + 1)
              (chainHashV020 o seq inp.contentId inp.contentType
                (computeContentHash o inp.content) prev)).length := by omega
          have h2 := ih (seq + 1)
            (chainHashV020 o seq inp.contentId inp.contentType
              (computeContentHash o inp.content) prev) k hk1 hk
          simp only [chainLoop, List.get_cons_succ] at h2 ⊢
          exact h2

theorem chainLoop_get_chain_hash (o : CryptoOracle) :
    ∀ (inputs : List ChainInput) (seq : Nat) (prev : String) (i : Nat)
      (hi : i < (chainLoop o .v020 inputs seq prev).length) (hii : i < inputs.length),
      ((chainLoop o .v020 inputs seq prev).get ⟨i, hi⟩).chain_hash =
        chainHashV020 o (seq + i) (inputs.get ⟨i, hii⟩).contentId
          (inputs.get ⟨i, hii⟩).contentType
          (computeContentHash o (inputs.get ⟨i, hii⟩).content)
          (((chainLoop o .v020 inputs seq prev).get ⟨i, hi⟩).previous_hash) := by
  intro inputs
  induction inputs with
  | nil =>
      intro seq prev i hi hii
      exact absurd hi (by simp [chainLoop])
  | cons inp rest ih =>
      intro seq prev i hi hii
      cases i with
      | zero => rfl
      | succ j =>
          have h2 := ih (seq + 1)
            (chainHashV020 o seq inp.contentId inp.contentType
              (computeContentHash o inp.content) prev) j (by
                have := hi
                simp only [chainLoop, List.length_cons] at this
                simpa using this) (by simpa using hii)
          simp only [chainLoop, List.get_cons_succ] at h2 ⊢
          rw [h2]
          have : seq + 1 + j = seq + (j + 1) := by omega
          rw [this]

/-- C3: Chain construction. For every input list of at most 10,000 items,
buildHashChain under the current (v0.2.0) proof version succeeds and returns
a chain of the same length in which link i carries sequence i, the genesis
sentinel (at i = 0) or the predecessor's chain_hash as previous_hash, the
content hash of input i as content_hash, and the SHA-256 of the
pipe-delimited string sequence, item_id, content_type, content_hash,
previous_hash as chain_hash. -/
theorem chain_construction (o : CryptoOracle) (inputs : List ChainInput)
    (options : Option SealOptions)
    (hlen : inputs.length ≤ MAX_CHAIN_ITEMS)
    (hver : resolveProofVersion options = ProofVersion.v020) :
    ∃ chain, buildHashChain o inputs options = Except.ok chain ∧
      chain.length = inputs.length ∧
      ∀ i (hi : i < chain.length) (hii : i < inputs.length),
        (chain.get ⟨i, hi⟩).sequence = i ∧
        (chain.get ⟨i, hi⟩).previous_hash =
          (if h0 : i = 0 then GENESIS_HASH else
            (chain.get ⟨i - 1, by omega⟩).chain_hash) ∧
        (chain.get ⟨i, hi⟩).content_hash = computeContentHash o (inputs.get ⟨i, hii⟩).content ∧
        (chain.get ⟨i, hi⟩).chain_hash =
          sha256 o (toString i ++ "|" ++ (inputs.get ⟨i, hii⟩).contentId ++ "|" ++
            (inputs.get ⟨i, hii⟩).contentType ++ "|" ++
            computeContentHash o (inputs.get ⟨i, hii⟩).content ++ "|" ++
            (chain.get ⟨i, hi⟩).previous_hash) := by
  refine ⟨chainLoop o .v020 inputs 0 GENESIS_HASH, ?_, chainLoop_length o .v020 inputs 0 GENESIS_HASH, ?_⟩
  · unfold buildHashChain
    rw [if_neg (by omega), hver]
  · intro i hi hii
    refine ⟨?_, ?_, chainLoop_get_content_hash o inputs 0 GENESIS_HASH i hi hii, ?_⟩
    · have := chainLoop_get_sequence o inputs 0 GENESIS_HASH i hi
      simpa using this
    · cases i with
      | zero =>
          rw [dif_pos rfl]
          exact chainLoop_get_zero_previous o inputs 0 GENESIS_HASH hi
      | succ j =>
          rw [dif_neg (by omega)]
          exact chainLoop_get_succ_previous o inputs 0 GENESIS_HASH j hi (by omega)
    · have h1 := chainLoop_get_chain_hash o inputs 0 GENESIS_HASH i hi hii
      rw [Nat.zero_add] at h1
      rw [h1]
      rfl

/-- Concrete inputs used to witness chain construction. -/
def w3inputs : List ChainInput :=
  [⟨.jobj [("a", .jnum 1)], "test/a", "c1"⟩, ⟨.jobj [("b", .jnum 2)], "test/b", "c2"⟩]

/-- C3 witness: chain construction at a concrete two-item input list. -/
theorem chain_construction_witness :
    ∃ chain, buildHashChain idOracle w3inputs none = Except.ok chain ∧
      chain.length = w3inputs.length ∧
      ∀ i (hi : i < chain.length) (hii : i < w3inputs.length),
        (chain.get ⟨i, hi⟩).sequence = i ∧
        (chain.get ⟨i, hi⟩).previous_hash =
          (if h0 : i = 0 then GENESIS_HASH else
            (chain.get ⟨i - 1, by omega⟩).chain_hash) ∧
        (chain.get ⟨i, hi⟩).content_hash =
          computeContentHash idOracle (w3inputs.get ⟨i, hii⟩).content ∧
        (chain.get ⟨i, hi⟩).chain_hash =
          sha256 idOracle (toString i ++ "|" ++ (w3inputs.get ⟨i, hii⟩).contentId ++ "|" ++
            (w3inputs.get ⟨i, hii⟩).contentType ++ "|" ++
            computeContentHash idOracle (w3inputs.get ⟨i, hii⟩).content ++ "|" ++
            (chain.get ⟨i, hi⟩).previous_hash) :=
  chain_construction idOracle w3inputs none (by decide) rfl

/-! ## C4: canonical key ordering -/

/-- The sequence of Unicode code points of a string. -/
def codePointUnits (s : String) : List Nat := s.data.map Char.toNat

/-- Strict lexicographic order by Unicode code point, the order the claim
asserts the serializer uses. -/
def codePointLtB (a b : String) : Bool := unitsLt (codePointUnits a) (codePointUnits b)

/-- U+FF61 HALFWIDTH IDEOGRAPHIC FULL STOP, a BMP code point. -/
def halfwidthKey : String := String.mk [Char.ofNat 0xFF61]

/-- U+1F600 GRINNING FACE, a code point outside the BMP. -/
def emojiKey : String := String.mk [Char.ofNat 0x1F600]

/-- An object whose two keys order differently by code point and by UTF-16
code unit: U+FF61 < U+1F600 by code point, but the surrogate D83D of U+1F600
precedes FF61 by code unit. -/
def nonBmpMembers : List (String × JsonValue) :=
  [(halfwidthKey, .jnum 1), (emojiKey, .jnum 2)]

/-- C4 counterexample: canonicalJson does not sort keys by Unicode code
point once a key lies outside the BMP. At nonBmpMembers the emitted key
order is [U+1F600, U+FF61] although U+FF61 strictly precedes U+1F600 in code
point order, so the claimed ordering fails at this concrete input (the JS
default sort comparator works on UTF-16 code units). -/
theorem canonical_key_ordering_not_codepoint :
    emittedKeys nonBmpMembers = [emojiKey, halfwidthKey] ∧
    codePointLtB halfwidthKey emojiKey = true ∧
    canonicalJson (.jobj nonBmpMembers) = "\x7b\"😀\":2,\"｡\":1\x7d" :=
  ⟨rfl, rfl, rfl⟩

/-- C4 (amended): canonicalJson emits object members sorted lexicographically
by UTF-16 code unit of the keys (which coincides with code-point order when
every key lies in the BMP), and canonicalJson on the object with keys z, a, m
and values 1, 2, 3 yields exactly the claimed whitespace-free text. -/
theorem canonical_key_ordering (members : List (String × JsonValue)) :
    (emittedKeys members).Pairwise (fun a b => keyLeB a b = true) ∧
    canonicalJson (.jobj [("z", .jnum 1), ("a", .jnum 2), ("m", .jnum 3)]) =
      "\x7b\"a\":2,\"m\":3,\"z\":1\x7d" :=
  ⟨emittedKeys_pairwise members, rfl⟩

/-! ## C5: error accumulation -/

theorem fieldErrors_ne_nil_of_items_none {bundle : EvidenceBundle}
    (h : bundle.items.isNone = true) : fieldErrors bundle ≠ [] := by
  apply List.ne_nil_of_length_pos
  simp only [fieldErrors, missingField, h, if_pos, List.length_append,
    List.length_cons, List.length_nil]
  omega

theorem fieldErrors_ne_nil_of_proof_none {bundle : EvidenceBundle}
    (h : bundle.immutability_proof.isNone = true) : fieldErrors bundle ≠ [] := by
  apply List.ne_nil_of_length_pos
  simp only [fieldErrors, missingField, h, if_pos, List.length_append,
    List.length_cons, List.length_nil]
  omega

/-- C5: Error accumulation. Whenever items and proof are present, verifyBundle
runs every stage and returns exactly the concatenation of the field, version,
content, chain, root, length, cross-check and signature errors, with valid
true iff that list is empty; when items or the proof is absent it returns
early with valid false and only the field and version errors. -/
theorem verify_error_accumulation (o : CryptoOracle) (bundle : EvidenceBundle)
    (options : Option VerifyOptions) :
    ((verifyBundle o bundle options).valid = true ↔ (verifyBundle o bundle options).errors = []) ∧
    verifyBundle o bundle options =
      (match bundle.items, bundle.immutability_proof with
      | some items, some proof =>
          let allErrors := fieldErrors bundle ++ versionErrors bundle ++
            (verifyContentHashes o items).errors ++
            (verifyHashChain o proof.hash_chain options).errors ++
            (verifyRootHash o proof).errors ++
            lengthErrors items proof.hash_chain ++
            crossErrors items proof.hash_chain 0 ++
            (verifySignatures o bundle options).errors
          ⟨allErrors.isEmpty, allErrors⟩
      | _, _ => ⟨false, fieldErrors bundle ++ versionErrors bundle⟩) := by
  have hbase : (bundle.items.isNone = true ∨ bundle.immutability_proof.isNone = true) →
      fieldErrors bundle ++ versionErrors bundle ≠ [] := by
    intro habs hE
    rcases habs with habs | habs
    · exact fieldErrors_ne_nil_of_items_none habs (List.append_eq_nil.mp hE).1
    · exact fieldErrors_ne_nil_of_proof_none habs (List.append_eq_nil.mp hE).1
  cases hi : bundle.items with
  | none =>
      cases hp : bundle.immutability_proof with
      | none =>
          refine ⟨?_, by simp [verifyBundle, hi, hp]⟩
          simp only [verifyBundle, hi, hp]
          constructor
          · intro h
            exact absurd h (by simp)
          · intro h
            exact absurd h (hbase (Or.inl (by simp [hi])))
      | some p =>
          refine ⟨?_, by simp [verifyBundle, hi, hp]⟩
          simp only [verifyBundle, hi, hp]
          constructor
          · intro h
            exact absurd h (by simp)
          · intro h
            exact absurd h (hbase (Or.inl (by simp [hi])))
  | some its =>
      cases hp : bundle.immutability_proof with
      | none =>
          refine ⟨?_, by simp [verifyBundle, hi, hp]⟩
          simp only [verifyBundle, hi, hp]
          constructor
          · intro h
            exact absurd h (by simp)
          · intro h
            exact absurd h (hbase (Or.inr (by simp [hp])))
      | some p =>
          refine ⟨?_, by simp [verifyBundle, hi, hp]⟩
          simp only [verifyBundle, hi, hp, List.isEmpty_iff]

/-! ## C6: root hash of an empty chain -/

theorem join_cons (s : String) (l : List String) :
    String.join (s :: l) = s ++ String.join l := by
  apply String.ext
  simp [String.join_eq, String.data_append]

theorem foldl_chainHashes : ∀ (l : List HashChainLink) (acc : String),
    l.foldl (fun a link => a ++ link.chain_hash) acc =
      acc ++ String.join (l.map fun link => link.chain_hash) := by
  intro l
  induction l with
  | nil =>
      intro acc
      simp only [List.foldl_nil, List.map_nil]
      rw [show String.join ([] : List String) = "" from rfl]
      simp
  | cons x xs ih =>
      intro acc
      simp only [List.foldl_cons, List.map_cons]
      rw [ih, join_cons, ← String.append_assoc]

/-- C6 counterexample: computeRootHash does not fail on an empty chain; it
returns the digest of the empty concatenation (under idOracle the hex part is
the empty string), i.e. a normal digest-shaped value, where the claim says
empty input is rejected. -/
theorem computeRootHash_empty_returns_digest :
    computeRootHash idOracle [] = "sha256:" := rfl

/-- C6 (amended): computeRootHash is total: on any chain (the empty chain
included) it returns "sha256:" plus the hash of the concatenation of all
chain_hash values in order; the rejection of empty chains lives in the
verifier, where verifyRootHash reports INPUT_VALIDATION_FAILED for a proof
whose hash_chain is empty. -/
theorem root_hash_amended (o : CryptoOracle) (chain : List HashChainLink)
    (proof : ImmutabilityProof) (hempty : proof.hash_chain = []) :
    computeRootHash o chain =
      "sha256:" ++ o.hashHex (String.join (chain.map fun link => link.chain_hash)) ∧
    verifyRootHash o proof = ⟨false, [⟨some ErrorCode.INPUT_VALIDATION_FAILED,
      "Immutability proof must contain a non-empty hash_chain"⟩]⟩ := by
  constructor
  · unfold computeRootHash concatChainHashes
    rw [foldl_chainHashes]
    simp
  · simp [verifyRootHash, hempty]

/-- Concrete chain used to witness the amended C6 statement. -/
def w6chain : List HashChainLink :=
  [⟨0, some "x1", some "test/x", "sha256:c1", "genesis", "sha256:h1"⟩]

/-- C6 witness: the amended statement at a concrete one-link chain and a
concrete empty-chain proof. -/
theorem root_hash_amended_witness :
    computeRootHash idOracle w6chain =
      "sha256:" ++ idOracle.hashHex (String.join (w6chain.map fun link => link.chain_hash)) ∧
    verifyRootHash idOracle ⟨[], "sha256:deadbeef"⟩ =
      ⟨false, [⟨some ErrorCode.INPUT_VALIDATION_FAILED,
        "Immutability proof must contain a non-empty hash_chain"⟩]⟩ :=
  root_hash_amended idOracle w6chain ⟨[], "sha256:deadbeef"⟩ rfl

/-! ## C7: version allow-list -/

/-- Concrete item for the version allow-list evaluation. -/
def w7items : List PartialItem := [⟨"v1", "test/v", .jobj [("k", .jnum 1)]⟩]

/-- An otherwise-valid sealed bundle declaring version 0.2.1, the version the
repository README documents as accepted. -/
def w7bundle : EvidenceBundle :=
  assembleBundle "b7" "0.2.1" "2026-01-01T00:00:00Z" (sealOrEmpty (sealBundle idOracle w7items none))

/-- C7: the accepted version allow-list of verify.ts contains exactly one
string, "0.2.0", and a sealed bundle declaring "0.2.1" (documented as
accepted by the README) is rejected: its only verification error is the
unsupported-version error, whose code field is the undefined enum member
(none). -/
theorem version_allowlist_evaluation :
    SUPPORTED_VERSIONS = ["0.2.0"] ∧
    (verifyBundle idOracle w7bundle none).valid = false ∧
    (verifyBundle idOracle w7bundle none).errors =
      [⟨none, "Unsupported bundle version: 0.2.1. Supported: 0.2.0"⟩] :=
  ⟨rfl, rfl, rfl⟩

/-! ## C8: error taxonomy -/

/-- Every member of the ErrorCode enum as declared in errors.ts. -/
def allErrorCodes : List ErrorCode :=
  [.HASH_CHAIN_BROKEN, .ROOT_HASH_MISMATCH, .CONTENT_HASH_MISMATCH, .SIGNATURE_INVALID,
    .SEQUENCE_GAP, .MISSING_REQUIRED_FIELD, .INPUT_VALIDATION_FAILED, .LENGTH_MISMATCH]

/-- Concrete item for the taxonomy evaluation. -/
def w8items : List PartialItem := [⟨"e1", "test/e", .jobj [("k", .jnum 2)]⟩]

/-- An otherwise-valid sealed bundle declaring the unsupported version 1.0.0. -/
def w8bundle : EvidenceBundle :=
  assembleBundle "b8" "1.0.0" "2026-01-02T00:00:00Z" (sealOrEmpty (sealBundle idOracle w8items none))

/-- C8: the error-code enumeration declared in errors.ts has exactly eight
members (UNSUPPORTED_VERSION is not among them), and verifyBundle on a bundle
with an unsupported version emits an error that carries none of the declared
codes (its code is the undefined member access, none). -/
theorem error_taxonomy_evaluation :
    allErrorCodes.length = 8 ∧
    (∀ c : ErrorCode, c ∈ allErrorCodes) ∧
    ((verifyBundle idOracle w8bundle none).errors.map fun e => e.code) = [none] := by
  refine ⟨rfl, ?_, rfl⟩
  intro c
  cases c <;> simp [allErrorCodes]

/-! ## C9: size boundary -/

/-- C9: Size boundary. Building a chain from exactly 10,000 items succeeds;
from 10,001 items it fails with the size-limit error, and the failing result
is independent of the hash oracle (no hashing is performed before the
rejection); sealing an empty item list fails with the validation error. -/
theorem size_boundary (o o2 : CryptoOracle) (inputs big : List ChainInput)
    (options : Option SealOptions)
    (h1 : inputs.length = 10000) (h2 : big.length = 10001) :
    (buildHashChain o inputs options).isOk = true ∧
    buildHashChain o big options =
      Except.error "buildHashChain: 10001 items exceeds limit of 10000" ∧
    buildHashChain o big options = buildHashChain o2 big options ∧
    sealBundle o [] options = Except.error "sealBundle: items must be a non-empty array" := by
  have hm : MAX_CHAIN_ITEMS = 10000 := rfl
  refine ⟨?_, ?_, ?_, rfl⟩
  · unfold buildHashChain
    rw [if_neg (by rw [h1, hm]; omega)]
    rfl
  · unfold buildHashChain
    rw [if_pos (by rw [h2, hm]; omega), h2]
    rfl
  · unfold buildHashChain
    rw [if_pos (by rw [h2, hm]; omega), if_pos (by rw [h2, hm]; omega)]

/-- Concrete input replicated to the boundary sizes. -/
def w9input : ChainInput := ⟨.jobj [("n", .jnum 0)], "test/n", "n1"⟩

/-- C9 witness: the boundary at concrete replicated lists of 10,000 and
10,001 inputs, with two different oracles. -/
theorem size_boundary_witness :
    (buildHashChain idOracle (List.replicate 10000 w9input) none).isOk = true ∧
    buildHashChain idOracle (List.replicate 10001 w9input) none =
      Except.error "buildHashChain: 10001 items exceeds limit of 10000" ∧
    buildHashChain idOracle (List.replicate 10001 w9input) none =
      buildHashChain zeroOracle (List.replicate 10001 w9input) none ∧
    sealBundle idOracle [] none = Except.error "sealBundle: items must be a non-empty array" :=
  size_boundary idOracle zeroOracle (List.replicate 10000 w9input)
    (List.replicate 10001 w9input) none (by rw [List.length_replicate])
    (by rw [List.length_replicate])

/-! ## C10: constant-time comparison at the JS code-unit level

A JS string at runtime is a sequence of UTF-16 code units and may contain
unpaired surrogates, which Lean's String (a sequence of Unicode scalar
values) cannot represent. Buffer.from(s, "utf-8") converts the code units to
scalar values first, replacing every unpaired surrogate with U+FFFD, and
then UTF-8-encodes the scalars; this conversion is not injective. The
definitions below model safeEqual at that level; utf8Bytes and safeEqual
above are their restriction to strings without unpaired surrogates
(safeEqual_eq_safeEqualJs below). -/

/-- Whether a code unit is a high (leading) surrogate. -/
def isHighSurrogate (u : Nat) : Bool := decide (0xD800 ≤ u) && decide (u ≤ 0xDBFF)

/-- Whether a code unit is a low (trailing) surrogate. -/
def isLowSurrogate (u : Nat) : Bool := decide (0xDC00 ≤ u) && decide (u ≤ 0xDFFF)

/-- Whether a code unit is itself a Unicode scalar value (a BMP code point
that is not a surrogate). -/
def isScalarUnit (u : Nat) : Bool :=
  decide (u < 0xD800) || (decide (0xDFFF < u) && decide (u < 0x10000))

/-- WHATWG conversion of a UTF-16 code-unit sequence to Unicode scalar
values, as Buffer.from(s, "utf-8") performs it: a high surrogate followed by
a low surrogate combines into one scalar; every unpaired surrogate becomes
U+FFFD (the replacement character); other units pass through. -/
def utf16Decode : List Nat → List Nat
  | [] => []
  | [u] => if isHighSurrogate u || isLowSurrogate u then [0xFFFD] else [u]
  | u :: u1 :: rest =>
      if isHighSurrogate u then
        if isLowSurrogate u1 then
          (0x10000 + (u - 0xD800) * 0x400 + (u1 - 0xDC00)) :: utf16Decode rest
        else 0xFFFD :: utf16Decode (u1 :: rest)
      else if isLowSurrogate u then 0xFFFD :: utf16Decode (u1 :: rest)
      else u :: utf16Decode (u1 :: rest)

/-- UTF-16 encoding of one Unicode scalar value. -/
def utf16Encode1 (c : Nat) : List Nat :=
  if c < 0x10000 then [c]
  else [0xD800 + (c - 0x10000) / 0x400, 0xDC00 + (c - 0x10000) % 0x400]

/-- UTF-16 encoding of a scalar-value sequence. -/
def utf16Encode (l : List Nat) : List Nat := l.flatMap utf16Encode1

/-- Byte sequence of Buffer.from(s, "utf-8") on an arbitrary JS string given
by its UTF-16 code units: decode to scalars with replacement, then UTF-8
encode each scalar. -/
def utf8BytesJs (units : List Nat) : List Nat :=
  (utf16Decode units).flatMap encodeUtf8Char

/-- verify.ts safeEqual on arbitrary JS strings given by their UTF-16 code
units: length-first short-circuit on the UTF-8 buffers, then the timing-safe
byte comparison. -/
def safeEqualJs (left right : List Nat) : Bool :=
  let bufLeft := utf8BytesJs left
  let bufRight := utf8BytesJs right
  if bufLeft.length ≠ bufRight.length then false
  else timingSafeEqual bufLeft bufRight

/-- A code-unit sequence is well-formed when every unit is a valid UTF-16
code unit and every surrogate occurs only as a high-low pair (no unpaired
surrogates), i.e. the string denotes a sequence of Unicode scalar values. -/
def wellFormedUtf16 : List Nat → Bool
  | [] => true
  | [u] => isScalarUnit u
  | u :: u1 :: rest =>
      if isHighSurrogate u then isLowSurrogate u1 && wellFormedUtf16 rest
      else isScalarUnit u && wellFormedUtf16 (u1 :: rest)

theorem isHighSurrogate_iff (u : Nat) :
    isHighSurrogate u = true ↔ 0xD800 ≤ u ∧ u ≤ 0xDBFF := by
  simp [isHighSurrogate]

theorem isLowSurrogate_iff (u : Nat) :
    isLowSurrogate u = true ↔ 0xDC00 ≤ u ∧ u ≤ 0xDFFF := by
  simp [isLowSurrogate]

theorem isScalarUnit_iff (u : Nat) :
    isScalarUnit u = true ↔ u < 0xD800 ∨ (0xDFFF < u ∧ u < 0x10000) := by
  simp [isScalarUnit]

theorem isHighSurrogate_false {u : Nat} (h : u < 0xD800 ∨ 0xDBFF < u) :
    isHighSurrogate u = false := by
  cases hb : isHighSurrogate u with
  | false => rfl
  | true => exact absurd ((isHighSurrogate_iff u).mp hb) (by omega)

theorem isLowSurrogate_false {u : Nat} (h : u < 0xDC00 ∨ 0xDFFF < u) :
    isLowSurrogate u = false := by
  cases hb : isLowSurrogate u with
  | false => rfl
  | true => exact absurd ((isLowSurrogate_iff u).mp hb) (by omega)

theorem utf16Decode_cons_scalar {u : Nat} (h : isScalarUnit u = true) (us : List Nat) :
    utf16Decode (u :: us) = u :: utf16Decode us := by
  have hb := (isScalarUnit_iff u).mp h
  have h1 : isHighSurrogate u = false := isHighSurrogate_false (by omega)
  have h2 : isLowSurrogate u = false := isLowSurrogate_false (by omega)
  cases us with
  | nil => simp [utf16Decode, h1, h2]
  | cons u1 rest => simp [utf16Decode, h1, h2]

theorem utf16Decode_cons_pair {u u1 : Nat} (h : isHighSurrogate u = true)
    (hl : isLowSurrogate u1 = true) (us : List Nat) :
    utf16Decode (u :: u1 :: us) =
      (0x10000 + (u - 0xD800) * 0x400 + (u1 - 0xDC00)) :: utf16Decode us := by
  simp [utf16Decode, h, hl]

theorem wellFormedUtf16_cons_scalar {u : Nat} (h : isScalarUnit u = true) (us : List Nat) :
    wellFormedUtf16 (u :: us) = wellFormedUtf16 us := by
  have hb := (isScalarUnit_iff u).mp h
  have h1 : isHighSurrogate u = false := isHighSurrogate_false (by omega)
  cases us with
  | nil => simp [wellFormedUtf16, h]
  | cons u1 rest => simp [wellFormedUtf16, h1, h]

theorem wellFormedUtf16_cons_pair {u u1 : Nat} (h : isHighSurrogate u = true)
    (hl : isLowSurrogate u1 = true) (us : List Nat) :
    wellFormedUtf16 (u :: u1 :: us) = wellFormedUtf16 us := by
  simp [wellFormedUtf16, h, hl]

/-- On a well-formed code-unit sequence, decoding and re-encoding is the
identity: no replacement happens, so the scalar sequence determines the
string. -/
theorem utf16Encode_decode : ∀ us : List Nat, wellFormedUtf16 us = true →
    utf16Encode (utf16Decode us) = us
  | [] => fun _ => rfl
  | [u] => fun h => by
      have hs : isScalarUnit u = true := by simpa [wellFormedUtf16] using h
      have hb := (isScalarUnit_iff u).mp hs
      rw [utf16Decode_cons_scalar hs]
      show utf16Encode (u :: []) = [u]
      simp only [utf16Encode, List.flatMap_cons, List.flatMap_nil, List.append_nil, utf16Encode1]
      rw [if_pos (by omega)]
  | u :: u1 :: rest => fun h => by
      by_cases hh : isHighSurrogate u = true
      · have hlw : isLowSurrogate u1 = true ∧ wellFormedUtf16 rest = true := by
          have h2 := h
          rw [wellFormedUtf16, if_pos hh, Bool.and_eq_true] at h2
          exact h2
        have ihr := utf16Encode_decode rest hlw.2
        rw [utf16Decode_cons_pair hh hlw.1]
        simp only [utf16Encode, List.flatMap_cons] at ihr ⊢
        rw [ihr]
        have hu := (isHighSurrogate_iff u).mp hh
        have hu1 := (isLowSurrogate_iff u1).mp hlw.1
        simp only [utf16Encode1]
        rw [if_neg (by omega)]
        have e0 : 0xD800 + ((0x10000 + (u - 0xD800) * 0x400 + (u1 - 0xDC00)) - 0x10000) / 0x400 = u := by
          omega
        have e1 : 0xDC00 + ((0x10000 + (u - 0xD800) * 0x400 + (u1 - 0xDC00)) - 0x10000) % 0x400 = u1 := by
          omega
        rw [e0, e1]
        rfl
      · have hh2 : isHighSurrogate u = false := by
          cases hb : isHighSurrogate u with
          | false => rfl
          | true => exact absurd hb hh
        have hsc : isScalarUnit u = true ∧ wellFormedUtf16 (u1 :: rest) = true := by
          have h2 := h
          rw [wellFormedUtf16, hh2] at h2
          simpa [Bool.and_eq_true] using h2
        have ihr := utf16Encode_decode (u1 :: rest) hsc.2
        rw [utf16Decode_cons_scalar hsc.1]
        simp only [utf16Encode, List.flatMap_cons] at ihr ⊢
        rw [ihr]
        have hb := (isScalarUnit_iff u).mp hsc.1
        simp only [utf16Encode1]
        rw [if_pos (by omega)]
        rfl

/-- Decoding a well-formed code-unit sequence yields Unicode scalar values. -/
theorem utf16Decode_lt : ∀ us : List Nat, wellFormedUtf16 us = true →
    ∀ c ∈ utf16Decode us, c < 0x110000
  | [] => by
      intro _ c hc
      exact absurd hc (by simp [utf16Decode])
  | [u] => by
      intro h c hc
      have hs : isScalarUnit u = true := by simpa [wellFormedUtf16] using h
      have hb := (isScalarUnit_iff u).mp hs
      rw [utf16Decode_cons_scalar hs] at hc
      have : c = u ∨ c ∈ utf16Decode [] := List.mem_cons.mp hc
      rcases this with h1 | h1
      · omega
      · exact absurd h1 (by simp [utf16Decode])
  | u :: u1 :: rest => by
      intro h c hc
      by_cases hh : isHighSurrogate u = true
      · have hlw : isLowSurrogate u1 = true ∧ wellFormedUtf16 rest = true := by
          have h2 := h
          rw [wellFormedUtf16, if_pos hh, Bool.and_eq_true] at h2
          exact h2
        have hu := (isHighSurrogate_iff u).mp hh
        have hu1 := (isLowSurrogate_iff u1).mp hlw.1
        rw [utf16Decode_cons_pair hh hlw.1] at hc
        rcases List.mem_cons.mp hc with h1 | h1
        · omega
        · exact utf16Decode_lt rest hlw.2 c h1
      · have hh2 : isHighSurrogate u = false := by
          cases hb : isHighSurrogate u with
          | false => rfl
          | true => exact absurd hb hh
        have hsc : isScalarUnit u = true ∧ wellFormedUtf16 (u1 :: rest) = true := by
          have h2 := h
          rw [wellFormedUtf16, hh2] at h2
          simpa [Bool.and_eq_true] using h2
        have hb := (isScalarUnit_iff u).mp hsc.1
        rw [utf16Decode_cons_scalar hsc.1] at hc
        rcases List.mem_cons.mp hc with h1 | h1
        · omega
        · exact utf16Decode_lt (u1 :: rest) hsc.2 c h1

/-- UTF-8 encoding is injective on sequences of Unicode scalar values. -/
theorem utf8Scalars_inj : ∀ l1 l2 : List Nat, (∀ c ∈ l1, c < 0x110000) →
    (∀ c ∈ l2, c < 0x110000) →
    l1.flatMap encodeUtf8Char = l2.flatMap encodeUtf8Char → l1 = l2 := by
  intro l1
  induction l1 with
  | nil =>
      intro l2 _ _ h
      cases l2 with
      | nil => rfl
      | cons d ds =>
          exfalso
          simp only [List.flatMap_nil, List.flatMap_cons] at h
          exact encodeUtf8Char_ne_nil d (List.append_eq_nil.mp h.symm).1
  | cons c cs ih =>
      intro l2 h1 h2 h
      cases l2 with
      | nil =>
          exfalso
          simp only [List.flatMap_nil, List.flatMap_cons] at h
          exact encodeUtf8Char_ne_nil c (List.append_eq_nil.mp h).1
      | cons d ds =>
          simp only [List.flatMap_cons] at h
          have hc := h1 c (by simp)
          have hd := h2 d (by simp)
          have e1 := decodeUtf8Lead_encode c hc (cs.flatMap encodeUtf8Char)
          have e2 := decodeUtf8Lead_encode d hd (ds.flatMap encodeUtf8Char)
          rw [h, e2] at e1
          have hfst : d = c := ((Prod.mk.injEq _ _ _ _).mp (Option.some.inj e1)).1
          have hsnd := ((Prod.mk.injEq _ _ _ _).mp (Option.some.inj e1)).2
          subst hfst
          rw [ih ds (fun x hx => h1 x (by simp [hx])) (fun x hx => h2 x (by simp [hx]))
            hsnd.symm]

/-- C10 counterexample: the two JS strings consisting of the single code
units 0xD800 and 0xDC00 (lone surrogates) are distinct, yet Buffer.from
maps both to the three replacement bytes EF BF BD, so the program's
safeEqual returns true on them: a false positive on unequal strings,
refuting the claim as stated for all strings. -/
theorem safeEqualJs_false_positive :
    safeEqualJs [0xD800] [0xDC00] = true ∧ ([0xD800] : List Nat) ≠ [0xDC00] ∧
    utf8BytesJs [0xD800] = [0xEF, 0xBF, 0xBD] ∧ utf8BytesJs [0xDC00] = [0xEF, 0xBF, 0xBD] := by
  refine ⟨?_, ?_, ?_, ?_⟩ <;> decide

/-- C10 (amended): on strings without unpaired surrogates — every string
that denotes a sequence of Unicode scalar values — safeEqual's length-first
short-circuit followed by the timing-safe byte comparison of the UTF-8
buffers returns true exactly when the strings are equal; false positives
exist only between ill-formed strings whose unpaired surrogates collapse to
the same replacement character. -/
theorem safeEqualJs_wellformed_iff (a b : List Nat)
    (ha : wellFormedUtf16 a = true) (hb : wellFormedUtf16 b = true) :
    safeEqualJs a b = true ↔ a = b := by
  constructor
  · intro h
    simp only [safeEqualJs, timingSafeEqual] at h
    by_cases hl : (utf8BytesJs a).length ≠ (utf8BytesJs b).length
    · rw [if_pos hl] at h
      exact absurd h (by simp)
    · rw [if_neg hl] at h
      have hbytes : (utf16Decode a).flatMap encodeUtf8Char =
          (utf16Decode b).flatMap encodeUtf8Char := by
        simpa [utf8BytesJs] using h
      have hdec : utf16Decode a = utf16Decode b :=
        utf8Scalars_inj (utf16Decode a) (utf16Decode b)
          (utf16Decode_lt a ha) (utf16Decode_lt b hb) hbytes
      calc a = utf16Encode (utf16Decode a) := (utf16Encode_decode a ha).symm
        _ = utf16Encode (utf16Decode b) := by rw [hdec]
        _ = b := utf16Encode_decode b hb
  · rintro rfl
    simp [safeEqualJs, timingSafeEqual]

/-- C10 witness: the amended equivalence at two concrete well-formed
code-unit sequences, one containing a surrogate pair. -/
theorem safeEqualJs_wellformed_iff_witness :
    wellFormedUtf16 [0x61, 0xD83D, 0xDE00] = true ∧ wellFormedUtf16 [0x62] = true ∧
    (safeEqualJs [0x61, 0xD83D, 0xDE00] [0x62] = true ↔
      ([0x61, 0xD83D, 0xDE00] : List Nat) = [0x62]) :=
  ⟨by decide, by decide,
    safeEqualJs_wellformed_iff [0x61, 0xD83D, 0xDE00] [0x62] (by decide) (by decide)⟩

/-! The scalar-level safeEqual used in the verifier embedding above is the
restriction of safeEqualJs to representable (well-formed) strings. -/

theorem wf_units_data : ∀ l : List Char,
    wellFormedUtf16 (l.flatMap fun c =>
      if c.toNat < 0x10000 then [c.toNat]
      else [0xD800 + (c.toNat - 0x10000) / 0x400, 0xDC00 + (c.toNat - 0x10000) % 0x400]) = true := by
  intro l
  induction l with
  | nil => rfl
  | cons c cs ih =>
      have hv := char_toNat_lt c
      have hvalid := c.valid
      have hns : c.toNat < 0xD800 ∨ 0xDFFF < c.toNat := by
        simp only [Char.toNat]
        rcases hvalid with h | h
        · omega
        · omega
      simp only [List.flatMap_cons]
      by_cases hc : c.toNat < 0x10000
      · rw [if_pos hc]
        show wellFormedUtf16 (c.toNat :: _) = true
        rw [wellFormedUtf16_cons_scalar (by rw [isScalarUnit_iff]; omega)]
        exact ih
      · rw [if_neg hc]
        show wellFormedUtf16 (_ :: _ :: _) = true
        rw [wellFormedUtf16_cons_pair (by rw [isHighSurrogate_iff]; omega)
          (by rw [isLowSurrogate_iff]; omega)]
        exact ih

theorem decode_units_data : ∀ l : List Char,
    utf16Decode (l.flatMap fun c =>
      if c.toNat < 0x10000 then [c.toNat]
      else [0xD800 + (c.toNat - 0x10000) / 0x400, 0xDC00 + (c.toNat - 0x10000) % 0x400]) =
      l.map Char.toNat := by
  intro l
  induction l with
  | nil => rfl
  | cons c cs ih =>
      have hv := char_toNat_lt c
      have hvalid := c.valid
      have hns : c.toNat < 0xD800 ∨ 0xDFFF < c.toNat := by
        simp only [Char.toNat]
        rcases hvalid with h | h
        · omega
        · omega
      simp only [List.flatMap_cons, List.map_cons]
      by_cases hc : c.toNat < 0x10000
      · rw [if_pos hc, List.singleton_append]
        rw [utf16Decode_cons_scalar (by rw [isScalarUnit_iff]; omega)]
        rw [ih]
      · rw [if_neg hc, List.cons_append, List.singleton_append]
        rw [utf16Decode_cons_pair (by rw [isHighSurrogate_iff]; omega)
          (by rw [isLowSurrogate_iff]; omega)]
        rw [ih]
        have e0 : 0x10000 + (0xD800 + (c.toNat - 0x10000) / 0x400 - 0xD800) * 0x400 +
            (0xDC00 + (c.toNat - 0x10000) % 0x400 - 0xDC00) = c.toNat := by omega
        rw [e0]

/-- Every Lean string denotes a well-formed JS string. -/
theorem wellFormedUtf16_utf16Units (s : String) : wellFormedUtf16 (utf16Units s) = true := by
  cases s with
  | mk data => simpa [utf16Units] using wf_units_data data

theorem flatMap_map_toNat : ∀ l : List Char,
    (l.map Char.toNat).flatMap encodeUtf8Char = l.flatMap fun c => encodeUtf8Char c.toNat := by
  intro l
  induction l with
  | nil => rfl
  | cons c cs ih => simp only [List.map_cons, List.flatMap_cons, ih]

/-- On representable strings, the code-unit-level buffer conversion agrees
with the scalar-level one used in the verifier embedding. -/
theorem utf8BytesJs_utf16Units (s : String) : utf8BytesJs (utf16Units s) = utf8Bytes s := by
  cases s with
  | mk data =>
      show (utf16Decode (utf16Units ⟨data⟩)).flatMap encodeUtf8Char = _
      have hu : utf16Decode (utf16Units ⟨data⟩) = data.map Char.toNat := by
        simpa [utf16Units] using decode_units_data data
      rw [hu, flatMap_map_toNat]
      rfl

/-- safeEqual on Lean strings is safeEqualJs on their code units: the
scalar-level model is the well-formed restriction of the JS-level one. -/
theorem safeEqual_eq_safeEqualJs (a b : String) :
    safeEqual a b = safeEqualJs (utf16Units a) (utf16Units b) := by
  simp only [safeEqual, safeEqualJs, utf8BytesJs_utf16Units]

end GuardSpine
